import Mathlib

/-!
Verification of the Agentic-Among-Us game core against its specification.

This file gives a shallow embedding, in Lean 4, of the parts of the
repository that the verified properties talk about:

* src/game/map_layouts.py — the Skeld map construction (grid carving,
  props, corridors, doors, tasks, spawn points) and walkability;
* src/game/state.py — the world state (players, tasks, phases) and its
  operations complete_task, attempt_kill, report_body, update_physics;
* src/game/pathfinding.py — A* grid search, goal resolution and
  Catmull–Rom path smoothing;
* src/game/vision.py — the field-of-view / raycast visibility test;
* src/agents/threaded_agent.py — installation of a freshly computed path
  on a player.

Python floats are idealised as exact numbers: grid arithmetic is over
Int, spline arithmetic over Rat, and geometric/trigonometric code over
Real.  Machine-float rounding is the only behaviour deliberately not
modelled.  Python `int()` truncation towards zero is modelled
explicitly where it occurs.
-/

/-! ## Map layouts (src/game/map_layouts.py) -/

/-- Integer grid point (map_layouts.Point). -/
structure Point where
  x : Int
  y : Int
deriving DecidableEq, Repr

/-- Axis-aligned rectangle (map_layouts.Rect). -/
structure Rect where
  x : Int
  y : Int
  w : Int
  h : Int
deriving DecidableEq, Repr

/-- Rect.center; Python `//` is floor division, hence Int.fdiv. -/
def Rect.center (r : Rect) : Point :=
  ⟨r.x + Int.fdiv r.w 2, r.y + Int.fdiv r.h 2⟩

/-- Rect.contains. -/
def Rect.contains (r : Rect) (p : Point) : Bool :=
  decide (r.x ≤ p.x ∧ p.x < r.x + r.w ∧ r.y ≤ p.y ∧ p.y < r.y + r.h)

/-- A door on the map (map_layouts.Door); only position and open/closed
state matter for walkability. -/
structure Door where
  position : Point
  is_closed : Bool
deriving DecidableEq, Repr

/-- The wall grid.  `grid x y` is the Python `grid[y][x]` entry:
1 = wall, 0 = walkable floor.  The Python grid is a 100×80 nested list;
we model it as a total function that is 1 (wall) away from any carved
region, which agrees with the source at all in-bounds cells.  (Python
negative-index wraparound, which the source never exercises on purpose,
is not modelled.) -/
abbrev Grid := Int → Int → Nat

def mapWidth : Int := 100

def mapHeight : Int := 80

/-- The initial all-wall grid (`[[1 ...] ...]`). -/
def initGrid : Grid := fun _ _ => 1

/-- SpaceshipMap._carve_rect: set every in-bounds cell of the rectangle
to 0. -/
def carveRect (r : Rect) (g : Grid) : Grid := fun x y =>
  if r.x ≤ x ∧ x < r.x + r.w ∧ r.y ≤ y ∧ y < r.y + r.h ∧
      0 ≤ x ∧ x < mapWidth ∧ 0 ≤ y ∧ y < mapHeight then 0 else g x y

/-- SpaceshipMap._add_prop grid effect: mark the prop's rectangle
(centred at (x,y), top-left at (x - w//2, y - h//2)) as wall. -/
def addProp (x y w h : Int) (g : Grid) : Grid := fun px py =>
  if x - Int.fdiv w 2 ≤ px ∧ px < x - Int.fdiv w 2 + w ∧
      y - Int.fdiv h 2 ≤ py ∧ py < y - Int.fdiv h 2 + h ∧
      0 ≤ px ∧ px < mapWidth ∧ 0 ≤ py ∧ py < mapHeight then 1 else g px py

/-- SpaceshipMap._carve_corridor: L-shaped corridor.  The horizontal leg
covers x from start.x to end.x inclusive (Python range with ±1 step) on
rows start.y ... start.y+width-1 (row bound checked); the vertical leg
covers y from start.y to end.y inclusive on columns
end.x ... end.x+width-1 (column bound checked).  Both legs write 0, so
their write order is irrelevant. -/
def carveCorridor (s e : Point) (wdt : Int) (g : Grid) : Grid := fun x y =>
  if (min s.x e.x ≤ x ∧ x ≤ max s.x e.x ∧ s.y ≤ y ∧ y < s.y + wdt ∧
        0 ≤ y ∧ y < mapHeight) ∨
      (min s.y e.y ≤ y ∧ y ≤ max s.y e.y ∧ e.x ≤ x ∧ x < e.x + wdt ∧
        0 ≤ x ∧ x < mapWidth) then 0 else g x y

/-- SpaceshipMap._add_door grid effect: the door cell is made walkable
(`grid[y][x] = 0`). -/
def carveDoorCell (x y : Int) (g : Grid) : Grid := fun a b =>
  if a = x ∧ b = y then 0 else g a b

/-- One grid-mutating step of SpaceshipMap._initialize_skeld. -/
inductive MapOp where
  | room (r : Rect)
  | prop (x y w h : Int)
  | corridor (s e : Point) (wdt : Int)
  | doorCell (x y : Int)

def applyOp : MapOp → Grid → Grid
  | .room r => carveRect r
  | .prop x y w h => addProp x y w h
  | .corridor s e wdt => carveCorridor s e wdt
  | .doorCell x y => carveDoorCell x y

/-- Room rectangles used below, in source order. -/
def cafeteriaRect : Rect := ⟨40, 5, 28, 18⟩

def medbayRect : Rect := ⟨26, 14, 10, 10⟩

def upperEngineRect : Rect := ⟨8, 10, 14, 14⟩

def reactorRect : Rect := ⟨4, 32, 14, 16⟩

def securityRect : Rect := ⟨24, 30, 10, 10⟩

def lowerEngineRect : Rect := ⟨8, 56, 14, 14⟩

def electricalRect : Rect := ⟨28, 46, 12, 12⟩

def storageRect : Rect := ⟨40, 60, 20, 14⟩

def adminRect : Rect := ⟨62, 38, 10, 10⟩

def commsRect : Rect := ⟨64, 64, 10, 10⟩

def shieldsRect : Rect := ⟨70, 52, 12, 12⟩

def o2Rect : Rect := ⟨68, 28, 10, 10⟩

def weaponsRect : Rect := ⟨72, 8, 14, 14⟩

def navigationRect : Rect := ⟨88, 34, 8, 14⟩

/-- The grid mutations of SpaceshipMap._initialize_skeld in exact
execution order: each room carve followed by its props, then the 19
corridors, then the 13 door cells. -/
def skeldOps : List MapOp :=
  [ .room cafeteriaRect,
    .prop 54 14 6 6, .prop 46 10 4 4, .prop 62 10 4 4,
    .prop 46 18 4 4, .prop 62 18 4 4,
    .room medbayRect, .prop 28 19 3 5, .prop 32 19 3 5,
    .room upperEngineRect, .prop 15 17 6 8,
    .room reactorRect, .prop 11 40 6 6, .prop 6 36 2 4, .prop 6 44 2 4,
    .room securityRect, .prop 27 35 4 2,
    .room lowerEngineRect, .prop 15 63 6 8,
    .room electricalRect, .prop 34 52 6 4,
    .room storageRect, .prop 45 65 4 6, .prop 55 68 5 5,
    .room adminRect, .prop 67 43 6 4,
    .room commsRect, .prop 69 69 4 4,
    .room shieldsRect, .prop 76 58 6 6,
    .room o2Rect,
    .room weaponsRect, .prop 79 15 4 4,
    .room navigationRect, .prop 92 41 4 4,
    .corridor ⟨40, 14⟩ ⟨36, 14⟩ 3, .corridor ⟨36, 14⟩ ⟨36, 19⟩ 3,
    .corridor ⟨36, 14⟩ ⟨22, 14⟩ 3,
    .corridor ⟨68, 14⟩ ⟨72, 14⟩ 3, .corridor ⟨72, 14⟩ ⟨72, 28⟩ 3,
    .corridor ⟨72, 22⟩ ⟨88, 40⟩ 3,
    .corridor ⟨54, 23⟩ ⟨54, 60⟩ 4,
    .corridor ⟨62, 43⟩ ⟨54, 43⟩ 2,
    .corridor ⟨60, 67⟩ ⟨64, 67⟩ 2, .corridor ⟨60, 62⟩ ⟨70, 58⟩ 2,
    .corridor ⟨40, 67⟩ ⟨22, 63⟩ 3,
    .corridor ⟨34, 46⟩ ⟨34, 40⟩ 2, .corridor ⟨34, 40⟩ ⟨22, 40⟩ 2,
    .corridor ⟨22, 17⟩ ⟨22, 63⟩ 3, .corridor ⟨22, 40⟩ ⟨18, 40⟩ 2,
    .corridor ⟨22, 35⟩ ⟨24, 35⟩ 2,
    .corridor ⟨18, 35⟩ ⟨18, 45⟩ 3, .corridor ⟨18, 35⟩ ⟨8, 24⟩ 2,
    .corridor ⟨18, 45⟩ ⟨8, 56⟩ 2,
    .doorCell 40 14, .doorCell 68 14, .doorCell 54 23,
    .doorCell 36 19, .doorCell 34 35, .doorCell 34 46,
    .doorCell 22 63, .doorCell 22 17, .doorCell 18 35, .doorCell 18 45,
    .doorCell 40 67, .doorCell 60 67, .doorCell 54 60 ]

/-- The fully built Skeld wall grid. -/
def skeldGrid : Grid := skeldOps.foldl (fun g op => applyOp op g) initGrid

/-- The 13 doors added by _initialize_skeld; Door.is_closed defaults to
False and nothing in the construction closes a door. -/
def skeldDoors : List Door :=
  [ ⟨⟨40, 14⟩, false⟩, ⟨⟨68, 14⟩, false⟩, ⟨⟨54, 23⟩, false⟩,
    ⟨⟨36, 19⟩, false⟩, ⟨⟨34, 35⟩, false⟩, ⟨⟨34, 46⟩, false⟩,
    ⟨⟨22, 63⟩, false⟩, ⟨⟨22, 17⟩, false⟩, ⟨⟨18, 35⟩, false⟩,
    ⟨⟨18, 45⟩, false⟩, ⟨⟨40, 67⟩, false⟩, ⟨⟨60, 67⟩, false⟩,
    ⟨⟨54, 60⟩, false⟩ ]

/-- The map data is_walkable consults (map_layouts.SpaceshipMap). -/
structure SpaceshipMap where
  width : Int
  height : Int
  grid : Grid
  doors : List Door

/-- SpaceshipMap.is_walkable: in bounds, not a wall cell, not a closed
door. -/
def SpaceshipMap.is_walkable (m : SpaceshipMap) (x y : Int) : Bool :=
  if 0 ≤ x ∧ x < m.width ∧ 0 ≤ y ∧ y < m.height then
    if m.grid x y = 1 then false
    else if m.doors.any fun d =>
        d.position.x == x && d.position.y == y && d.is_closed then false
    else true
  else false

/-- The Skeld map as built by SpaceshipMap.__init__. -/
def skeldMap : SpaceshipMap := ⟨mapWidth, mapHeight, skeldGrid, skeldDoors⟩

/-- The 12 task points added in step 4 of _initialize_skeld, in source
order. -/
def skeldTaskPoints : List Point :=
  [ ⟨42, 6⟩, ⟨66, 6⟩, ⟨80, 10⟩, ⟨92, 36⟩, ⟨73, 33⟩, ⟨76, 58⟩,
    ⟨69, 69⟩, ⟨50, 67⟩, ⟨67, 43⟩, ⟨30, 50⟩, ⟨28, 19⟩, ⟨6, 40⟩ ]

/-- The spawn points: a single point below the cafeteria centre table,
Point(cafeteria.bounds.center.x, cafeteria.bounds.center.y + 5). -/
def skeldSpawnPoints : List Point :=
  [ ⟨cafeteriaRect.center.x, cafeteriaRect.center.y + 5⟩ ]

example : skeldMap.is_walkable 54 19 = true := by decide

example : skeldMap.is_walkable 76 58 = false := by decide

/-! ## Rooms dictionary

The rooms dict of SpaceshipMap is keyed by room *id* (lowercase:
"cafeteria", "medbay", ...).  Only the bounds rectangles matter for the
modelled operations. -/

def skeldRooms : List (String × Rect) :=
  [ ("cafeteria", cafeteriaRect), ("medbay", medbayRect),
    ("upper_engine", upperEngineRect), ("reactor", reactorRect),
    ("security", securityRect), ("lower_engine", lowerEngineRect),
    ("electrical", electricalRect), ("storage", storageRect),
    ("admin", adminRect), ("comms", commsRect), ("shields", shieldsRect),
    ("o2", o2Rect), ("weapons", weaponsRect), ("navigation", navigationRect) ]

/-- Python dict .get on the rooms dict. -/
def roomsGet (key : String) : Option Rect :=
  (skeldRooms.find? fun kv => kv.1 == key).map Prod.snd

/-! ## Game state (src/game/state.py) -/

/-- state.GamePhase. -/
inductive GamePhase where
  | playing
  | meeting
  | voting
  | game_over
deriving DecidableEq, Repr

/-- state.Position: 2D float position, idealised over ℝ. -/
structure Position where
  x : ℝ
  y : ℝ

/-- Position.distance_to: Euclidean distance. -/
noncomputable def Position.distance_to (p q : Position) : ℝ :=
  Real.sqrt ((p.x - q.x) ^ 2 + (p.y - q.y) ^ 2)

/-- state.Task (fields used by the modelled operations).  Named GameTask
because Lean's core library already takes the name Task. -/
structure GameTask where
  id : String
  name : String
  room_name : String
  position : Position
  completed : Bool

/-- state.PlayerState (fields used by the modelled operations; purely
cosmetic render/animation fields are omitted). -/
structure PlayerState where
  name : String
  position : Position
  is_imposter : Bool
  is_alive : Bool
  tasks_completed : Finset String
  assigned_tasks : List String
  last_action : Option String
  kill_cooldown : ℝ
  kill_timer : ℝ
  path : List (ℝ × ℝ)
  current_path_index : ℕ
  speed : ℝ
  facing_angle : ℝ
  status_message : String

/-- A fresh player as built by state.GameState.add_player /
PlayerState's dataclass defaults (kill_cooldown 30, kill_timer 10,
empty path, path cursor 0, speed 4). -/
def freshPlayer (name : String) (pos : Position) (is_imposter : Bool) :
    PlayerState where
  name := name
  position := pos
  is_imposter := is_imposter
  is_alive := true
  tasks_completed := ∅
  assigned_tasks := []
  last_action := none
  kill_cooldown := 30
  kill_timer := 10
  path := []
  current_path_index := 0
  speed := 4
  facing_angle := 0
  status_message := "Idle"

/-- state.GameState (fields used by the modelled operations).  The
players and tasks dicts are modelled as partial maps out of String. -/
structure GameState where
  phase : GamePhase
  players : String → Option PlayerState
  tasks : String → Option GameTask
  dead_bodies : List (String × Position)
  meeting_called_by : Option String
  votes : List (String × String)

/-- The freshly-constructed GameState: Playing phase, no players, no
tasks, no bodies, no votes. -/
def initialGameState : GameState where
  phase := .playing
  players := fun _ => none
  tasks := fun _ => none
  dead_bodies := []
  meeting_called_by := none
  votes := []

/-- Dict entry assignment. -/
def mapSet {α : Type} (f : String → Option α) (k : String) (v : α) :
    String → Option α :=
  fun n => if n = k then some v else f n

/-- GameState.complete_task: returns the success flag and the updated
state.  The source checks only that the task and player exist, that the
task id is in the player's assigned list and that it is not already in
the player's completed set; it checks neither liveness, nor impostor
status, nor any distance. -/
def complete_task (s : GameState) (player_name task_id : String) :
    Bool × GameState :=
  match s.tasks task_id with
  | none => (false, s)
  | some task =>
    match s.players player_name with
    | none => (false, s)
    | some player =>
      if task_id ∈ player.assigned_tasks ∧ task_id ∉ player.tasks_completed then
        (true,
          { s with
            players := mapSet s.players player_name
              { player with
                tasks_completed := insert task_id player.tasks_completed },
            tasks := mapSet s.tasks task_id { task with completed := true } })
      else (false, s)

/-- GameState.attempt_kill: guard chain exactly as in the source
(existence, impostor, killer alive, target alive, cooldown, distance),
then the kill effect: target marked dead, body recorded at a copy of
the target's position, killer cooldown reset to kill_cooldown.  The
killer update is applied after the target update so that the
killer = target aliasing of the Python objects is preserved.  The
dynamic parts of the Python message strings are dropped. -/
noncomputable def attempt_kill (s : GameState) (killer_name target_name : String) :
    (Bool × String) × GameState :=
  match s.players killer_name, s.players target_name with
  | some killer, some target =>
    if killer.is_imposter = false then ((false, "Not an imposter"), s)
    else if killer.is_alive = false then ((false, "Killer is dead"), s)
    else if target.is_alive = false then ((false, "Target already dead"), s)
    else if killer.kill_timer > 0 then ((false, "Kill cooldown"), s)
    else if killer.position.distance_to target.position > 2 then
      ((false, "Target too far"), s)
    else
      let ps1 := mapSet s.players target_name
        { target with is_alive := false, status_message := "DEAD" }
      let killerNow := (ps1 killer_name).getD killer
      let ps2 := mapSet ps1 killer_name
        { killerNow with
          kill_timer := killer.kill_cooldown,
          status_message := "Killed " ++ target_name,
          last_action := some "kill" }
      ((true, "Kill successful"),
        { s with
          players := ps2,
          dead_bodies := s.dead_bodies ++
            [(target_name, ⟨target.position.x, target.position.y⟩)] })
  | _, _ => ((false, "Player not found"), s)

/-- GameState.report_body.  Note the source looks up
`self.map.rooms.get("Cafeteria")`, but the rooms dict is keyed by the
lowercase id "cafeteria", so the lookup misses and the teleport /
path-clearing block is skipped; the modelled lookup reproduces this.
`jitter` supplies the random.uniform(-3, 3) teleport offsets that the
(dead) teleport branch would use. -/
noncomputable def report_body (s : GameState) (reporter_name : String)
    (body_info : String × Position) (jitter : String → ℝ × ℝ) :
    (Bool × String) × GameState :=
  match s.players reporter_name with
  | none => ((false, "Invalid reporter"), s)
  | some reporter =>
    if reporter.is_alive = false then ((false, "Invalid reporter"), s)
    else if reporter.position.distance_to body_info.2 > 3 then
      ((false, "Too far to report"), s)
    else
      let s1 := { s with
        phase := GamePhase.meeting,
        meeting_called_by := some reporter_name }
      match roomsGet "Cafeteria" with
      | none => ((true, "Body reported! Meeting started."), s1)
      | some caf =>
        ((true, "Body reported! Meeting started."),
          { s1 with
            players := fun n => (s1.players n).map fun p =>
              if p.is_alive then
                { p with
                  position := ⟨(caf.center.x : ℝ) + (jitter n).1,
                               (caf.center.y : ℝ) + (jitter n).2⟩,
                  path := [],
                  status_message := "In Meeting" }
              else p })

/-- atan2, as used by math.atan2: the argument of the complex number
x + y·i, in (-π, π]. -/
noncomputable def atan2 (y x : ℝ) : ℝ := Complex.arg ⟨x, y⟩

/-- The per-player body of GameState.update_physics.  The guard
`not player.path or player.current_path_index >= len(player.path)` is
exactly the failure of current_path_index < len(path). -/
noncomputable def stepPlayer (dt : ℝ) (p : PlayerState) : PlayerState :=
  if h : p.current_path_index < p.path.length then
    let target := p.path.get ⟨p.current_path_index, h⟩
    let target_pos : Position := ⟨target.1, target.2⟩
    let dist := p.position.distance_to target_pos
    if dist < 0.1 then
      if p.path.length ≤ p.current_path_index + 1 then
        { p with
          current_path_index := p.current_path_index + 1,
          path := [],
          status_message := "Idle" }
      else { p with current_path_index := p.current_path_index + 1 }
    else
      let dx := target_pos.x - p.position.x
      let dy := target_pos.y - p.position.y
      let len := Real.sqrt (dx * dx + dy * dy)
      if len > 0 then
        let dxn := dx / len
        let dyn := dy / len
        let move_dist := p.speed * dt
        let move_dist := if move_dist > dist then dist else move_dist
        { p with
          position := ⟨p.position.x + dxn * move_dist,
                       p.position.y + dyn * move_dist⟩,
          facing_angle := atan2 dyn dxn }
      else p
  else p

/-- GameState.update_physics: every player is advanced independently;
the loop reads and writes only that player's own fields. -/
noncomputable def update_physics (s : GameState) (dt : ℝ) : GameState :=
  { s with players := fun n => (s.players n).map (stepPlayer dt) }

/-- GameState.add_player (plus generate_tasks_for_player): spawns the
player at a chosen spawn point plus jitter and assigns three fresh
tasks at the centres of chosen rooms.  `spawn` is the random spawn
choice, `jit` the random.uniform(-1,1) jitter, `taskIds` the three
uuid4 ids and `rooms` the three random room choices. -/
def add_player (s : GameState) (name : String) (is_imposter : Bool)
    (spawn : Point) (jit : ℝ × ℝ) (taskIds : Fin 3 → String)
    (rooms : Fin 3 → String × Rect) : GameState :=
  let pos : Position := ⟨(spawn.x : ℝ) + jit.1, (spawn.y : ℝ) + jit.2⟩
  let base := freshPlayer name pos is_imposter
  let player := { base with
    assigned_tasks := base.assigned_tasks ++
      [taskIds 0, taskIds 1, taskIds 2] }
  let mkTask : Fin 3 → GameTask := fun i =>
    { id := taskIds i,
      name := "Fix Wiring in " ++ (rooms i).1,
      room_name := (rooms i).1,
      position := ⟨((rooms i).2.center.x : ℝ), ((rooms i).2.center.y : ℝ)⟩,
      completed := false }
  { s with
    players := mapSet s.players name player,
    tasks := mapSet (mapSet (mapSet s.tasks
      (taskIds 0) (mkTask 0)) (taskIds 1) (mkTask 1)) (taskIds 2) (mkTask 2) }

/-- Installation of a freshly computed path on a player
(threaded_agent._parse_and_execute_llm_action, MOVE branch): when the
computed smoothed path is nonempty it becomes the player's path and the
path cursor is reset to 0. -/
def installPath (s : GameState) (name : String) (smoothed : List (ℝ × ℝ))
    (room_name : String) : GameState :=
  if smoothed.isEmpty then s
  else
    match s.players name with
    | none => s
    | some p =>
      { s with
        players := mapSet s.players name
          { p with
            path := smoothed,
            current_path_index := 0,
            status_message := "Moving to " ++ room_name } }

/-! ## Helper lemmas about the state operations -/

lemma roomsGet_cafeteria_capitalised : roomsGet "Cafeteria" = none := by decide

/-- Evaluation of attempt_kill when every guard passes. -/
lemma attempt_kill_success {s : GameState} {kn tn : String}
    {killer target : PlayerState}
    (hk : s.players kn = some killer) (ht : s.players tn = some target)
    (h1 : killer.is_imposter = true) (h2 : killer.is_alive = true)
    (h3 : target.is_alive = true) (h4 : ¬ killer.kill_timer > 0)
    (h5 : ¬ killer.position.distance_to target.position > 2) :
    attempt_kill s kn tn =
      ((true, "Kill successful"),
        let ps1 := mapSet s.players tn
          { target with is_alive := false, status_message := "DEAD" }
        { s with
          players := mapSet ps1 kn
            { (ps1 kn).getD killer with
              kill_timer := killer.kill_cooldown,
              status_message := "Killed " ++ tn,
              last_action := some "kill" },
          dead_bodies := s.dead_bodies ++
            [(tn, ⟨target.position.x, target.position.y⟩)] }) := by
  unfold attempt_kill
  rw [hk, ht]
  simp [h1, h2, h3, h4, h5]

/-- attempt_kill rejects and leaves the state unchanged whenever the
killer exists and its cooldown timer is still positive. -/
lemma attempt_kill_reject_of_cooldown {s : GameState} {kn : String}
    (tn : String) {killer : PlayerState}
    (hk : s.players kn = some killer) (h : killer.kill_timer > 0) :
    (attempt_kill s kn tn).1.1 = false ∧ (attempt_kill s kn tn).2 = s := by
  unfold attempt_kill
  rw [hk]
  cases htn : s.players tn with
  | none => exact ⟨rfl, rfl⟩
  | some target =>
    by_cases h1 : killer.is_imposter = false
    · simp [h1]
    · by_cases h2 : killer.is_alive = false
      · simp [h1, h2]
      · by_cases h3 : target.is_alive = false
        · simp [h1, h2, h3]
        · simp [h1, h2, h3, h]

/-- Evaluation of complete_task when every guard passes. -/
lemma complete_task_success {s : GameState} {pn tid : String}
    {task : GameTask} {player : PlayerState}
    (htask : s.tasks tid = some task) (hp : s.players pn = some player)
    (h1 : tid ∈ player.assigned_tasks) (h2 : tid ∉ player.tasks_completed) :
    complete_task s pn tid =
      (true,
        { s with
          players := mapSet s.players pn
            { player with
              tasks_completed := insert tid player.tasks_completed },
          tasks := mapSet s.tasks tid { task with completed := true } }) := by
  unfold complete_task
  rw [htask, hp]
  simp [h1, h2]

/-- complete_task rejects, with unchanged state, whenever any guard
fails. -/
lemma complete_task_reject {s : GameState} {pn tid : String}
    (h : ¬ ∃ task player, s.tasks tid = some task ∧ s.players pn = some player ∧
       tid ∈ player.assigned_tasks ∧ tid ∉ player.tasks_completed) :
    complete_task s pn tid = (false, s) := by
  unfold complete_task
  cases htask : s.tasks tid with
  | none => rfl
  | some task =>
    cases hp : s.players pn with
    | none => rfl
    | some player =>
      have : ¬ (tid ∈ player.assigned_tasks ∧ tid ∉ player.tasks_completed) := by
        intro hc
        exact h ⟨task, player, htask, hp, hc.1, hc.2⟩
      simp [this]

/-! ## Concrete states used as counterexamples and witnesses -/

/-- A player at (px, py) with chosen role, liveness and cooldown timer;
all other fields as freshly spawned. -/
def mkPlayer (name : String) (px py : ℝ) (imp alive : Bool) (timer : ℝ) :
    PlayerState :=
  { freshPlayer name ⟨px, py⟩ imp with is_alive := alive, kill_timer := timer }

/-- Meeting-phase state with an off-cooldown impostor "a" standing on
its victim "b". -/
def meetingWorld : GameState :=
  { initialGameState with
    phase := .meeting,
    players := mapSet
      (mapSet (fun _ => none) "a" (mkPlayer "a" 0 0 true true 0))
      "b" (mkPlayer "b" 0 0 false true 10) }

lemma meetingWorld_a : meetingWorld.players "a" = some (mkPlayer "a" 0 0 true true 0) := by
  rfl

lemma meetingWorld_b : meetingWorld.players "b" = some (mkPlayer "b" 0 0 false true 10) := by
  rfl

lemma distance_to_self_zero (p : Position) : p.distance_to p = 0 := by
  simp [Position.distance_to]

/-- C1 counterexample core: in Meeting phase the kill still succeeds and
mutates the state. -/
lemma meetingWorld_kill :
    (attempt_kill meetingWorld "a" "b").1.1 = true ∧
    ((attempt_kill meetingWorld "a" "b").2.players "b").map
      PlayerState.is_alive = some false := by
  have h := attempt_kill_success meetingWorld_a meetingWorld_b rfl rfl rfl
    (by norm_num [mkPlayer, freshPlayer])
    (by
      have : (mkPlayer "a" 0 0 true true 0).position.distance_to
          (mkPlayer "b" 0 0 false true 10).position = 0 := by
        simp [mkPlayer, freshPlayer]
        exact distance_to_self_zero ⟨0, 0⟩
      rw [this]; norm_num)
  rw [h]
  constructor
  · rfl
  · simp [mapSet]

/-! ## C1: phase checks in the state operations -/

lemma phase_set_players (s : GameState) (φ : GamePhase) :
    ({ s with phase := φ } : GameState).players = s.players := rfl

lemma phase_set_tasks (s : GameState) (φ : GamePhase) :
    ({ s with phase := φ } : GameState).tasks = s.tasks := rfl

/-- attempt_kill is blind to the phase field. -/
lemma attempt_kill_phase (s : GameState) (φ : GamePhase) (kn tn : String) :
    attempt_kill { s with phase := φ } kn tn =
      ((attempt_kill s kn tn).1,
        { (attempt_kill s kn tn).2 with phase := φ }) := by
  unfold attempt_kill
  cases hk : s.players kn <;> cases ht : s.players tn <;>
      simp only [phase_set_players, hk, ht] <;> try rfl
  split_ifs <;> rfl

/-- complete_task is blind to the phase field. -/
lemma complete_task_phase (s : GameState) (φ : GamePhase) (pn tid : String) :
    complete_task { s with phase := φ } pn tid =
      ((complete_task s pn tid).1,
        { (complete_task s pn tid).2 with phase := φ }) := by
  unfold complete_task
  cases htask : s.tasks tid <;> cases hp : s.players pn <;>
      simp only [phase_set_players, phase_set_tasks, htask, hp] <;> try rfl
  split_ifs <;> rfl

/-- report_body reads no phase either; it sets the phase to Meeting on
success. -/
lemma report_body_phase (s : GameState) (φ : GamePhase) (rn : String)
    (body : String × Position) (jit : String → ℝ × ℝ) :
    report_body { s with phase := φ } rn body jit =
      ((report_body s rn body jit).1,
        { (report_body s rn body jit).2 with phase :=
            if (report_body s rn body jit).1.1 = true then GamePhase.meeting
            else φ }) := by
  unfold report_body
  cases hr : s.players rn <;> simp only [phase_set_players, hr] <;> try rfl
  rw [roomsGet_cafeteria_capitalised]
  split_ifs <;> first | rfl | contradiction

/-- C1: the claim, as stated, is false on the code: in the Meeting phase
attempt_kill still succeeds and mutates the state (the off-cooldown
impostor "a" kills the adjacent living player "b" of meetingWorld). -/
theorem C1_counterexample :
    meetingWorld.phase = GamePhase.meeting ∧
    (attempt_kill meetingWorld "a" "b").1.1 = true ∧
    ((attempt_kill meetingWorld "a" "b").2.players "b").map
      PlayerState.is_alive = some false ∧
    (attempt_kill meetingWorld "a" "b").2 ≠ meetingWorld := by
  refine ⟨rfl, meetingWorld_kill.1, meetingWorld_kill.2, ?_⟩
  intro he
  have hb := meetingWorld_kill.2
  rw [he, meetingWorld_b] at hb
  simp [mkPlayer, freshPlayer] at hb

/-- C1 (amended): attempt_kill, complete_task and report_body never read
the game phase.  In every phase (including Meeting, Voting and
GameOver) each returns the same result and performs the same state
change as in Playing — report_body additionally forces the phase to
Meeting on success.  Rejection of kill/task/report actions outside the
Playing phase is enforced only in the agent command layer
(threaded_agent._parse_and_execute_llm_action), not by these world
state operations. -/
theorem C1_phase_independence (s : GameState) (φ : GamePhase)
    (kn tn pn tid rn : String) (body : String × Position)
    (jit : String → ℝ × ℝ) :
    (attempt_kill { s with phase := φ } kn tn).1 =
        (attempt_kill s kn tn).1 ∧
    (attempt_kill { s with phase := φ } kn tn).2 =
        { (attempt_kill s kn tn).2 with phase := φ } ∧
    (complete_task { s with phase := φ } pn tid).1 =
        (complete_task s pn tid).1 ∧
    (complete_task { s with phase := φ } pn tid).2 =
        { (complete_task s pn tid).2 with phase := φ } ∧
    (report_body { s with phase := φ } rn body jit).1 =
        (report_body s rn body jit).1 ∧
    (report_body { s with phase := φ } rn body jit).2 =
        { (report_body s rn body jit).2 with phase :=
            if (report_body s rn body jit).1.1 = true then GamePhase.meeting
            else φ } := by
  refine ⟨?_, ?_, ?_, ?_, ?_, ?_⟩
  · rw [attempt_kill_phase]
  · rw [attempt_kill_phase]
  · rw [complete_task_phase]
  · rw [complete_task_phase]
  · rw [report_body_phase]
  · rw [report_body_phase]

/-! ## C2: attempt_kill cooldown gating and kill effect -/

lemma mapSet_self {α : Type} (f : String → Option α) (k : String) (v : α) :
    mapSet f k v k = some v := by simp [mapSet]

/-- Playing-phase state with off-cooldown impostor "a" on top of living
player "b". -/
def killWorld : GameState :=
  { initialGameState with
    players := mapSet
      (mapSet (fun _ => none) "a" (mkPlayer "a" 0 0 true true 0))
      "b" (mkPlayer "b" 0 0 false true 10) }

/-- Like killWorld, but "a" still has 5 seconds of kill cooldown. -/
def cooldownWorld : GameState :=
  { initialGameState with
    players := mapSet
      (mapSet (fun _ => none) "a" (mkPlayer "a" 0 0 true true 5))
      "b" (mkPlayer "b" 0 0 false true 10) }

/-- C2: attempt_kill rejects (leaving the state unchanged) whenever the
killer's cooldown timer is positive; and when the killer is an alive
impostor with zero cooldown and the target is an alive player within
the kill range of 2 units, it succeeds, marks the target dead, appends
the (target, target-position) body record, and resets the killer's
timer to exactly kill_cooldown, which is positive immediately after. -/
theorem C2_attempt_kill (s : GameState) (kn tn : String)
    (killer target : PlayerState)
    (hk : s.players kn = some killer) (ht : s.players tn = some target) :
    (killer.kill_timer > 0 →
      (attempt_kill s kn tn).1.1 = false ∧ (attempt_kill s kn tn).2 = s) ∧
    (killer.is_imposter = true → killer.is_alive = true →
     target.is_alive = true → killer.kill_timer = 0 →
     killer.position.distance_to target.position ≤ 2 →
     0 < killer.kill_cooldown →
      (attempt_kill s kn tn).1.1 = true ∧
      ((attempt_kill s kn tn).2.players tn).map PlayerState.is_alive =
        some false ∧
      (attempt_kill s kn tn).2.dead_bodies =
        s.dead_bodies ++ [(tn, ⟨target.position.x, target.position.y⟩)] ∧
      ∃ k1, (attempt_kill s kn tn).2.players kn = some k1 ∧
        k1.kill_timer = killer.kill_cooldown ∧ 0 < k1.kill_timer) := by
  constructor
  · intro h
    exact attempt_kill_reject_of_cooldown tn hk h
  · intro h1 h2 h3 h4 h5 h6
    have hsucc := attempt_kill_success hk ht h1 h2 h3
      (by rw [h4]; norm_num) (not_lt.mpr h5)
    rw [hsucc]
    refine ⟨rfl, ?_, rfl, ?_⟩
    · by_cases he : tn = kn
      · subst he
        simp [mapSet]
      · simp [mapSet, he]
    · exact ⟨_, mapSet_self _ _ _, rfl, h6⟩

/-- C2 witness: in cooldownWorld the kill is rejected without state
change; in killWorld it succeeds and leaves the killer's timer at the
configured 30-second cooldown. -/
theorem C2_attempt_kill_witness :
    ((attempt_kill cooldownWorld "a" "b").1.1 = false ∧
      (attempt_kill cooldownWorld "a" "b").2 = cooldownWorld) ∧
    ((attempt_kill killWorld "a" "b").1.1 = true ∧
      ∃ k1, (attempt_kill killWorld "a" "b").2.players "a" = some k1 ∧
        k1.kill_timer = 30 ∧ 0 < k1.kill_timer) := by
  constructor
  · exact (C2_attempt_kill cooldownWorld "a" "b" _ _ rfl rfl).1
      (by norm_num [mkPlayer, freshPlayer])
  · have h := (C2_attempt_kill killWorld "a" "b" _ _ rfl rfl).2
      rfl rfl rfl rfl
      (by
        show Position.distance_to ⟨0, 0⟩ ⟨0, 0⟩ ≤ 2
        rw [distance_to_self_zero]; norm_num)
      (by norm_num [mkPlayer, freshPlayer])
    obtain ⟨k1, hk1, ht1, hp1⟩ := h.2.2.2
    exact ⟨h.1, k1, hk1, ht1.trans rfl, hp1⟩

/-! ## C3: complete_task guards and idempotence -/

/-- C3 (amended): complete_task rejects with unchanged state iff one of
the checks the source actually performs fails: the task exists, the
player exists, the task is assigned to the player and not already in
the player's completed set.  Liveness, impostor status and distance are
not checked by this operation (the caller layers enforce them).  On
success it marks the task completed and inserts the id in the player's
completed set exactly once, so an immediate second call on the same
pair is a no-op rejection. -/
theorem C3_complete_task (s : GameState) (pn tid : String) :
    ((complete_task s pn tid).1 = false → (complete_task s pn tid).2 = s) ∧
    ((complete_task s pn tid).1 = true ↔
      ∃ task player, s.tasks tid = some task ∧ s.players pn = some player ∧
        tid ∈ player.assigned_tasks ∧ tid ∉ player.tasks_completed) ∧
    (∀ task player, s.tasks tid = some task → s.players pn = some player →
      tid ∈ player.assigned_tasks → tid ∉ player.tasks_completed →
      (complete_task s pn tid).2.tasks tid =
        some { task with completed := true } ∧
      (complete_task s pn tid).2.players pn =
        some { player with
          tasks_completed := insert tid player.tasks_completed } ∧
      complete_task (complete_task s pn tid).2 pn tid =
        (false, (complete_task s pn tid).2)) := by
  refine ⟨?_, ⟨?_, ?_⟩, ?_⟩
  · intro hfalse
    by_cases hc : ∃ task player, s.tasks tid = some task ∧
        s.players pn = some player ∧ tid ∈ player.assigned_tasks ∧
        tid ∉ player.tasks_completed
    · obtain ⟨task, player, h1, h2, h3, h4⟩ := hc
      rw [complete_task_success h1 h2 h3 h4] at hfalse
      simp at hfalse
    · rw [complete_task_reject hc]
  · intro htrue
    by_contra hc
    rw [complete_task_reject hc] at htrue
    simp at htrue
  · rintro ⟨task, player, h1, h2, h3, h4⟩
    rw [complete_task_success h1 h2 h3 h4]
  · intro task player h1 h2 h3 h4
    rw [complete_task_success h1 h2 h3 h4]
    refine ⟨by simp [mapSet], by simp [mapSet], ?_⟩
    apply complete_task_reject
    rintro ⟨task2, player2, g1, g2, g3, g4⟩
    simp [mapSet] at g2
    apply g4
    rw [← g2]
    exact Finset.mem_insert_self tid player.tasks_completed

/-- Counterexample state for C3: the dead impostor "z", one thousand
units away from its assigned task "t". -/
def c3Task : GameTask :=
  { id := "t", name := "Fix Wiring in electrical",
    room_name := "electrical", position := ⟨0, 0⟩, completed := false }

def c3xPlayer : PlayerState :=
  { mkPlayer "z" 1000 1000 true false 10 with assigned_tasks := ["t"] }

def c3xWorld : GameState :=
  { initialGameState with
    players := mapSet (fun _ => none) "z" c3xPlayer,
    tasks := mapSet (fun _ => none) "t" c3Task }

/-- C3: the claim, as stated, is false on the code: the dead impostor
"z", at distance √2000000 > 50 from the task, still completes it
successfully. -/
theorem C3_counterexample :
    (complete_task c3xWorld "z" "t").1 = true ∧
    (c3xWorld.players "z").map PlayerState.is_alive = some false ∧
    (c3xWorld.players "z").map PlayerState.is_imposter = some true ∧
    c3xPlayer.position.distance_to c3Task.position > 50 := by
  refine ⟨?_, rfl, rfl, ?_⟩
  · rw [@complete_task_success c3xWorld "z" "t" c3Task c3xPlayer rfl rfl
      (by simp [c3xPlayer]) (by simp [c3xPlayer, mkPlayer, freshPlayer])]
  · show (50 : ℝ) < Real.sqrt _
    rw [Real.lt_sqrt (by norm_num)]
    show (50 : ℝ) ^ 2 < ((1000 : ℝ) - 0) ^ 2 + ((1000 : ℝ) - 0) ^ 2
    norm_num

/-- C3 witness: in a state where the living crewmate "p" stands exactly
on its fresh assigned task "t", the first call succeeds and the second
call is a no-op rejection. -/
def c3Player : PlayerState :=
  { mkPlayer "p" 0 0 false true 10 with assigned_tasks := ["t"] }

def c3World : GameState :=
  { initialGameState with
    players := mapSet (fun _ => none) "p" c3Player,
    tasks := mapSet (fun _ => none) "t" c3Task }

theorem C3_complete_task_witness :
    (complete_task c3World "p" "t").1 = true ∧
    complete_task (complete_task c3World "p" "t").2 "p" "t" =
      (false, (complete_task c3World "p" "t").2) := by
  have h := C3_complete_task c3World "p" "t"
  have h3 : "t" ∈ c3Player.assigned_tasks := by simp [c3Player]
  have h4 : "t" ∉ c3Player.tasks_completed := by
    simp [c3Player, mkPlayer, freshPlayer]
  exact ⟨h.2.1.mpr ⟨c3Task, c3Player, rfl, rfl, h3, h4⟩,
    (h.2.2 c3Task c3Player rfl rfl h3 h4).2.2⟩

/-! ## C10: frame condition of update_physics -/

/-- stepPlayer touches only position, facing_angle, current_path_index,
path and status_message; every other field is copied unchanged. -/
lemma stepPlayer_frame (dt : ℝ) (p : PlayerState) :
    (stepPlayer dt p).name = p.name ∧
    (stepPlayer dt p).is_alive = p.is_alive ∧
    (stepPlayer dt p).is_imposter = p.is_imposter ∧
    (stepPlayer dt p).kill_timer = p.kill_timer ∧
    (stepPlayer dt p).kill_cooldown = p.kill_cooldown ∧
    (stepPlayer dt p).tasks_completed = p.tasks_completed ∧
    (stepPlayer dt p).assigned_tasks = p.assigned_tasks ∧
    (stepPlayer dt p).last_action = p.last_action ∧
    (stepPlayer dt p).speed = p.speed := by
  unfold stepPlayer
  split
  · dsimp only
    split_ifs <;> exact ⟨rfl, rfl, rfl, rfl, rfl, rfl, rfl, rfl, rfl⟩
  · exact ⟨rfl, rfl, rfl, rfl, rfl, rfl, rfl, rfl, rfl⟩

/-- C10: update_physics changes at most the movement fields of players;
every player's is_alive, is_imposter, kill_timer, tasks_completed and
assigned_tasks, the set of players present, and the world's phase,
tasks, dead_bodies and votes are identical before and after. -/
theorem C10_update_physics_frame (s : GameState) (dt : ℝ) :
    (update_physics s dt).phase = s.phase ∧
    (update_physics s dt).tasks = s.tasks ∧
    (update_physics s dt).dead_bodies = s.dead_bodies ∧
    (update_physics s dt).meeting_called_by = s.meeting_called_by ∧
    (update_physics s dt).votes = s.votes ∧
    ∀ n : String,
      ((update_physics s dt).players n).isSome = (s.players n).isSome ∧
      ((update_physics s dt).players n).map PlayerState.is_alive =
        (s.players n).map PlayerState.is_alive ∧
      ((update_physics s dt).players n).map PlayerState.is_imposter =
        (s.players n).map PlayerState.is_imposter ∧
      ((update_physics s dt).players n).map PlayerState.kill_timer =
        (s.players n).map PlayerState.kill_timer ∧
      ((update_physics s dt).players n).map PlayerState.tasks_completed =
        (s.players n).map PlayerState.tasks_completed ∧
      ((update_physics s dt).players n).map PlayerState.assigned_tasks =
        (s.players n).map PlayerState.assigned_tasks := by
  refine ⟨rfl, rfl, rfl, rfl, rfl, ?_⟩
  intro n
  have hup : (update_physics s dt).players n =
      (s.players n).map (stepPlayer dt) := rfl
  rw [hup]
  cases hp : s.players n with
  | none => exact ⟨rfl, rfl, rfl, rfl, rfl, rfl⟩
  | some p =>
    obtain ⟨-, h2, h3, h4, -, h6, h7, -, -⟩ := stepPlayer_frame dt p
    exact ⟨rfl, by simp [h2], by simp [h3], by simp [h4],
      by simp [h6], by simp [h7]⟩

/-! ## C9: the path cursor never passes the end of a nonempty path -/

/-- State with player "m" standing exactly on the single waypoint of its
installed path. -/
def arrivalPlayer : PlayerState :=
  { mkPlayer "m" 0 0 false true 10 with
    path := [((0 : ℝ), (0 : ℝ))], current_path_index := 0 }

def arrivalWorld : GameState :=
  { initialGameState with players := mapSet (fun _ => none) "m" arrivalPlayer }

/-- stepPlayer on a player that reaches the final waypoint: the cursor
is incremented past the end and the path is cleared. -/
lemma stepPlayer_arrive (dt : ℝ) (p : PlayerState)
    (h : p.current_path_index < p.path.length)
    (hd : p.position.distance_to
        ⟨(p.path.get ⟨p.current_path_index, h⟩).1,
         (p.path.get ⟨p.current_path_index, h⟩).2⟩ < 0.1)
    (hl : p.path.length ≤ p.current_path_index + 1) :
    stepPlayer dt p =
      { p with
        current_path_index := p.current_path_index + 1,
        path := [],
        status_message := "Idle" } := by
  unfold stepPlayer
  rw [dif_pos h]
  dsimp only
  rw [if_pos hd, if_pos hl]

/-- C9: the claim, as stated, is false on the code: after update_physics
the arrived player's cursor (1) exceeds the length (0) of its cleared
path. -/
theorem C9_counterexample :
    ((update_physics arrivalWorld 1).players "m").map
      (fun p => (p.path.length, p.current_path_index)) = some (0, 1) ∧
    (0 : ℕ) < 1 := by
  refine ⟨?_, Nat.zero_lt_one⟩
  have h : arrivalPlayer.current_path_index < arrivalPlayer.path.length := by
    norm_num [arrivalPlayer, mkPlayer, freshPlayer]
  have harr := stepPlayer_arrive 1 arrivalPlayer h
    (by
      show Position.distance_to ⟨0, 0⟩ ⟨0, 0⟩ < 0.1
      rw [distance_to_self_zero]; norm_num)
    (by norm_num [arrivalPlayer, mkPlayer, freshPlayer])
  show ((arrivalWorld.players "m").map (stepPlayer 1)).map _ = _
  rw [show arrivalWorld.players "m" = some arrivalPlayer from rfl]
  simp [harr]
  rfl

/-- C9 (amended) invariant: every player with a nonempty path has its
cursor strictly inside the path. -/
def PathInv (s : GameState) : Prop :=
  ∀ n p, s.players n = some p → p.path ≠ [] →
    p.current_path_index < p.path.length

/-- States reachable from the fresh GameState by the world state
operations of the claim (path installation, update_physics,
report_body, attempt_kill, complete_task) together with add_player,
which is how players enter the world in the first place. -/
inductive Reachable : GameState → Prop where
  | init : Reachable initialGameState
  | add (s : GameState) (name : String) (imp : Bool) (spawn : Point)
      (jit : ℝ × ℝ) (taskIds : Fin 3 → String)
      (rooms : Fin 3 → String × Rect) :
      Reachable s → Reachable (add_player s name imp spawn jit taskIds rooms)
  | install (s : GameState) (name : String) (smoothed : List (ℝ × ℝ))
      (rn : String) :
      Reachable s → Reachable (installPath s name smoothed rn)
  | physics (s : GameState) (dt : ℝ) :
      Reachable s → Reachable (update_physics s dt)
  | kill (s : GameState) (kn tn : String) :
      Reachable s → Reachable (attempt_kill s kn tn).2
  | task (s : GameState) (pn tid : String) :
      Reachable s → Reachable (complete_task s pn tid).2
  | report (s : GameState) (rn : String) (body : String × Position)
      (jit : String → ℝ × ℝ) :
      Reachable s → Reachable (report_body s rn body jit).2

/-- Invariant transfer along operations that keep each surviving
player's path and cursor. -/
lemma pathInv_of_players_eq {s s' : GameState}
    (h : ∀ n p', s'.players n = some p' → ∃ p, s.players n = some p ∧
      p'.path = p.path ∧ p'.current_path_index = p.current_path_index)
    (hs : PathInv s) : PathInv s' := by
  intro n p' hp' hne
  obtain ⟨p, hp, hpath, hidx⟩ := h n p' hp'
  rw [hpath] at hne ⊢
  rw [hidx]
  exact hs n p hp hne

/-- attempt_kill never touches path or cursor of any player. -/
lemma attempt_kill_paths (s : GameState) (kn tn : String) :
    ∀ n p', (attempt_kill s kn tn).2.players n = some p' →
      ∃ p, s.players n = some p ∧ p'.path = p.path ∧
        p'.current_path_index = p.current_path_index := by
  unfold attempt_kill
  cases hk : s.players kn <;> cases ht : s.players tn <;>
      intro n p' hp' <;> try exact ⟨p', hp', rfl, rfl⟩
  rename_i killer target
  dsimp only at hp'
  split_ifs at hp' <;> try exact ⟨p', hp', rfl, rfl⟩
  simp only [mapSet] at hp'
  by_cases h1 : n = kn
  · rw [if_pos h1] at hp'
    rw [Option.some_inj] at hp'
    subst h1
    by_cases h2 : n = tn
    · subst h2
      rw [hk] at ht
      rw [Option.some_inj] at ht
      subst ht
      refine ⟨killer, hk, ?_, ?_⟩ <;> rw [← hp'] <;> simp [mapSet]
    · refine ⟨killer, hk, ?_, ?_⟩ <;> rw [← hp'] <;> simp [mapSet, h2, hk]
  · rw [if_neg h1] at hp'
    by_cases h2 : n = tn
    · subst h2
      rw [if_pos rfl] at hp'
      rw [Option.some_inj] at hp'
      exact ⟨target, ht, by rw [← hp'], by rw [← hp']⟩
    · rw [if_neg h2] at hp'
      exact ⟨p', hp', rfl, rfl⟩

/-- complete_task never touches path or cursor of any player. -/
lemma complete_task_paths (s : GameState) (pn tid : String) :
    ∀ n p', (complete_task s pn tid).2.players n = some p' →
      ∃ p, s.players n = some p ∧ p'.path = p.path ∧
        p'.current_path_index = p.current_path_index := by
  unfold complete_task
  cases htask : s.tasks tid <;> intro n p' hp' <;>
      try exact ⟨p', hp', rfl, rfl⟩
  rename_i task
  revert hp'
  cases hp : s.players pn <;> intro hp' <;> try exact ⟨p', hp', rfl, rfl⟩
  rename_i player
  dsimp only at hp'
  split_ifs at hp' <;> try exact ⟨p', hp', rfl, rfl⟩
  simp only [mapSet] at hp'
  by_cases h1 : n = pn
  · rw [if_pos h1] at hp'
    rw [Option.some_inj] at hp'
    subst h1
    exact ⟨player, hp, by rw [← hp'], by rw [← hp']⟩
  · rw [if_neg h1] at hp'
    exact ⟨p', hp', rfl, rfl⟩

/-- report_body never touches path or cursor of any player (its teleport
block is dead code because of the "Cafeteria" key miss). -/
lemma report_body_paths (s : GameState) (rn : String)
    (body : String × Position) (jit : String → ℝ × ℝ) :
    ∀ n p', (report_body s rn body jit).2.players n = some p' →
      ∃ p, s.players n = some p ∧ p'.path = p.path ∧
        p'.current_path_index = p.current_path_index := by
  unfold report_body
  cases hr : s.players rn <;> intro n p' hp' <;>
      try exact ⟨p', hp', rfl, rfl⟩
  revert hp'
  rw [roomsGet_cafeteria_capitalised]
  dsimp only
  split_ifs <;> intro hp' <;> exact ⟨p', hp', rfl, rfl⟩

/-- stepPlayer preserves the cursor invariant of a single player. -/
lemma stepPlayer_pathInv (dt : ℝ) (p : PlayerState)
    (hp : p.path ≠ [] → p.current_path_index < p.path.length) :
    (stepPlayer dt p).path ≠ [] →
      (stepPlayer dt p).current_path_index < (stepPlayer dt p).path.length := by
  unfold stepPlayer
  split
  · dsimp only
    split_ifs with hd hl <;>
      first
        | (intro hne; simp at hne; done)
        | (intro _; exact not_le.mp hl)
        | (intro hne; exact hp hne)
  · exact hp

lemma update_physics_pathInv (s : GameState) (dt : ℝ) (hs : PathInv s) :
    PathInv (update_physics s dt) := by
  intro n p' hp' hne
  rw [show (update_physics s dt).players n =
      (s.players n).map (stepPlayer dt) from rfl] at hp'
  cases hp : s.players n with
  | none => rw [hp] at hp'; cases hp'
  | some p =>
    rw [hp] at hp'
    rw [Option.map_some', Option.some_inj] at hp'
    subst hp'
    exact stepPlayer_pathInv dt p (hs n p hp) hne

lemma installPath_pathInv (s : GameState) (name : String)
    (smoothed : List (ℝ × ℝ)) (rn : String) (hs : PathInv s) :
    PathInv (installPath s name smoothed rn) := by
  unfold installPath
  split_ifs with he
  · exact hs
  · cases hp : s.players name with
    | none => exact hs
    | some p =>
      intro n p' hp' hne
      simp only [mapSet] at hp'
      by_cases hn : n = name
      · rw [if_pos hn, Option.some_inj] at hp'
        rw [← hp']
        show (0 : ℕ) < smoothed.length
        rw [List.length_pos]
        intro hnil
        rw [hnil] at he
        exact he rfl
      · rw [if_neg hn] at hp'
        exact hs n p' hp' hne

lemma add_player_pathInv (s : GameState) (name : String) (imp : Bool)
    (spawn : Point) (jit : ℝ × ℝ) (taskIds : Fin 3 → String)
    (rooms : Fin 3 → String × Rect) (hs : PathInv s) :
    PathInv (add_player s name imp spawn jit taskIds rooms) := by
  intro n p' hp' hne
  unfold add_player at hp'
  simp only [mapSet] at hp'
  by_cases hn : n = name
  · rw [if_pos hn, Option.some_inj] at hp'
    exfalso
    apply hne
    rw [← hp']
    rfl
  · rw [if_neg hn] at hp'
    exact hs n p' hp' hne

/-- C9 (amended): in every reachable state, every player with a
nonempty path has its cursor strictly below the number of waypoints.
(The unqualified "cursor never exceeds the path length" fails: clearing
an exhausted path leaves the cursor past the now-empty path, see the
counterexample.) -/
theorem C9_path_cursor_invariant (s : GameState) (h : Reachable s) :
    PathInv s := by
  induction h with
  | init => intro n p hp _; cases hp
  | add s name imp spawn jit taskIds rooms _ ih =>
      exact add_player_pathInv s name imp spawn jit taskIds rooms ih
  | install s name smoothed rn _ ih =>
      exact installPath_pathInv s name smoothed rn ih
  | physics s dt _ ih => exact update_physics_pathInv s dt ih
  | kill s kn tn _ ih =>
      exact pathInv_of_players_eq (attempt_kill_paths s kn tn) ih
  | task s pn tid _ ih =>
      exact pathInv_of_players_eq (complete_task_paths s pn tid) ih
  | report s rn body jit _ ih =>
      exact pathInv_of_players_eq (report_body_paths s rn body jit) ih

/-- C9 witness: a concrete reachable state (spawn a player, install a
one-waypoint path, advance physics) satisfying the invariant. -/
theorem C9_path_cursor_invariant_witness :
    PathInv (update_physics (installPath
      (add_player initialGameState "a" false ⟨54, 19⟩ (0, 0)
        (fun _ => "x") (fun _ => ("cafeteria", cafeteriaRect)))
      "a" [(1, 1)] "storage") 1) :=
  C9_path_cursor_invariant _
    (Reachable.physics _ 1 (Reachable.install _ "a" [(1, 1)] "storage"
      (Reachable.add _ "a" false ⟨54, 19⟩ (0, 0) _ _ Reachable.init)))

/-! ## Pathfinding: Catmull–Rom smoothing (src/game/pathfinding.py) -/

/-- Integer grid pair cast to an exact (rational) float point. -/
def castPt (p : ℤ × ℤ) : ℚ × ℚ := ((p.1 : ℚ), (p.2 : ℚ))

/-- The Catmull–Rom sample of Pathfinder.smooth_path at parameter t:
q(t) = 0.5·((2·P1) + (−P0+P2)·t + (2·P0−5·P1+4·P2−P3)·t² +
(−P0+3·P1−3·P2+P3)·t³), componentwise. -/
def catmullRomPoint (p0 p1 p2 p3 : ℤ × ℤ) (t : ℚ) : ℚ × ℚ :=
  let tt := t * t
  let ttt := tt * t
  (0.5 * ((2 * (p1.1 : ℚ)) + (-(p0.1 : ℚ) + (p2.1 : ℚ)) * t +
      (2 * (p0.1 : ℚ) - 5 * (p1.1 : ℚ) + 4 * (p2.1 : ℚ) - (p3.1 : ℚ)) * tt +
      (-(p0.1 : ℚ) + 3 * (p1.1 : ℚ) - 3 * (p2.1 : ℚ) + (p3.1 : ℚ)) * ttt),
   0.5 * ((2 * (p1.2 : ℚ)) + (-(p0.2 : ℚ) + (p2.2 : ℚ)) * t +
      (2 * (p0.2 : ℚ) - 5 * (p1.2 : ℚ) + 4 * (p2.2 : ℚ) - (p3.2 : ℚ)) * tt +
      (-(p0.2 : ℚ) + 3 * (p1.2 : ℚ) - 3 * (p2.2 : ℚ) + (p3.2 : ℚ)) * ttt))

/-- The five samples (t = 0, 1/5, 2/5, 3/5, 4/5) of one spline segment
(`for t_step in range(steps_per_segment)` with steps_per_segment 5). -/
def segmentSamples (p0 p1 p2 p3 : ℤ × ℤ) : List (ℚ × ℚ) :=
  (List.range 5).map fun j : ℕ => catmullRomPoint p0 p1 p2 p3 ((j : ℚ) / 5)

/-- The sliding windows points[i..i+3] for i in range(len(points)-3). -/
def windows4 : List (ℤ × ℤ) → List ((ℤ × ℤ) × (ℤ × ℤ) × (ℤ × ℤ) × (ℤ × ℤ))
  | p0 :: p1 :: p2 :: p3 :: rest =>
      (p0, p1, p2, p3) :: windows4 (p1 :: p2 :: p3 :: rest)
  | _ => []

/-- Pathfinder.smooth_path: paths shorter than 3 are cast verbatim;
otherwise the Catmull–Rom spline over the control points
[path[0]] + path + [path[-1]] is sampled 5 times per segment and the
(cast) final grid cell is appended.  Arithmetic is exact (ℚ) where the
source uses floats. -/
def smooth_path (path : List (ℤ × ℤ)) : List (ℚ × ℚ) :=
  if path.length < 3 then path.map castPt
  else
    match path with
    | [] => []
    | p0 :: rest =>
      let plast := (p0 :: rest).getLast (List.cons_ne_nil p0 rest)
      let points := p0 :: (p0 :: rest) ++ [plast]
      ((windows4 points).map fun w =>
        segmentSamples w.1 w.2.1 w.2.2.1 w.2.2.2).join ++ [castPt plast]

lemma catmullRomPoint_zero (p0 p1 p2 p3 : ℤ × ℤ) :
    catmullRomPoint p0 p1 p2 p3 0 = castPt p1 := by
  simp [catmullRomPoint, castPt]
  constructor <;> ring

lemma windows4_length : ∀ l : List (ℤ × ℤ),
    (windows4 l).length = l.length - 3
  | [] => rfl
  | [_] => rfl
  | [_, _] => rfl
  | [_, _, _] => rfl
  | a :: b :: c :: d :: rest => by
      have ih := windows4_length (b :: c :: d :: rest)
      simp only [windows4, List.length_cons] at ih ⊢
      omega

lemma segmentSamples_length (p0 p1 p2 p3 : ℤ × ℤ) :
    (segmentSamples p0 p1 p2 p3).length = 5 := rfl

lemma mem_windows4_tail {w : (ℤ × ℤ) × (ℤ × ℤ) × (ℤ × ℤ) × (ℤ × ℤ)}
    {l : List (ℤ × ℤ)} (y : ℤ × ℤ) (h : w ∈ windows4 l) :
    w ∈ windows4 (y :: l) := by
  match l with
  | [] => simp [windows4] at h
  | [_] => simp [windows4] at h
  | [_, _] => simp [windows4] at h
  | [_, _, _] => simp [windows4] at h
  | a :: b :: c :: d :: rest => exact List.mem_cons_of_mem _ h

/-- Every list element sitting at least one position in and at least two
positions from the end appears as the second component of a window. -/
lemma p1_mem_windows4 : ∀ (pre : List (ℤ × ℤ)) (x q s1 s2 : ℤ × ℤ)
    (suf : List (ℤ × ℤ)),
    ∃ w ∈ windows4 (x :: pre ++ q :: s1 :: s2 :: suf), w.2.1 = q := by
  intro pre
  induction pre with
  | nil =>
    intro x q s1 s2 suf
    exact ⟨(x, q, s1, s2), by simp [windows4], rfl⟩
  | cons p pre' ih =>
    intro x q s1 s2 suf
    obtain ⟨w, hw, hq⟩ := ih p q s1 s2 suf
    exact ⟨w, mem_windows4_tail x hw, hq⟩

lemma segmentSamples_eq (p0 p1 p2 p3 : ℤ × ℤ) :
    segmentSamples p0 p1 p2 p3 =
      castPt p1 ::
        [catmullRomPoint p0 p1 p2 p3 (1 / 5),
         catmullRomPoint p0 p1 p2 p3 (2 / 5),
         catmullRomPoint p0 p1 p2 p3 (3 / 5),
         catmullRomPoint p0 p1 p2 p3 (4 / 5)] := by
  unfold segmentSamples
  rw [show List.range 5 = [0, 1, 2, 3, 4] by decide]
  simp only [List.map_cons, List.map_nil]
  rw [show ((0 : ℕ) : ℚ) / 5 = 0 by norm_num, catmullRomPoint_zero]
  norm_num

lemma castPt_mem_segmentSamples (p0 p1 p2 p3 : ℤ × ℤ) :
    castPt p1 ∈ segmentSamples p0 p1 p2 p3 := by
  rw [segmentSamples_eq]
  exact List.mem_cons_self _ _

/-- C6: smooth_path returns short paths verbatim (cast to ℚ); for paths
of length ≥ 3 its output starts and ends exactly at the original first
and last points, contains every original waypoint, has exactly
5·(n−1)+1 points, and is strictly longer than the input. -/
theorem C6_smooth_path (path : List (ℤ × ℤ)) :
    (path.length < 3 → smooth_path path = path.map castPt) ∧
    (3 ≤ path.length →
      (smooth_path path).head? = path.head?.map castPt ∧
      (smooth_path path).getLast? = path.getLast?.map castPt ∧
      (∀ q ∈ path, castPt q ∈ smooth_path path) ∧
      (smooth_path path).length = 5 * (path.length - 1) + 1 ∧
      path.length < (smooth_path path).length) := by
  constructor
  · intro h
    unfold smooth_path
    rw [if_pos h]
  · intro h3
    match path, h3 with
    | a :: b :: c :: rest, _ =>
    have hne3 : ¬ (a :: b :: c :: rest).length < 3 := by
      simp only [List.length_cons]
      omega
    set plast := (a :: b :: c :: rest).getLast
        (List.cons_ne_nil a (b :: c :: rest)) with hpl
    have hsm : smooth_path (a :: b :: c :: rest) =
        ((windows4 ((a :: a :: b :: c :: rest) ++ [plast])).map fun w =>
          segmentSamples w.1 w.2.1 w.2.2.1 w.2.2.2).join ++ [castPt plast] := by
      unfold smooth_path
      rw [if_neg hne3]
    have hw4 : windows4 ((a :: a :: b :: c :: rest) ++ [plast]) =
        (a, a, b, c) :: windows4 ((a :: b :: c :: rest) ++ [plast]) := rfl
    have hlen : (smooth_path (a :: b :: c :: rest)).length =
        5 * ((a :: b :: c :: rest).length - 1) + 1 := by
      rw [hsm, List.length_append, List.length_join, List.map_map]
      have hconst : (List.length ∘ fun w :
          (ℤ × ℤ) × (ℤ × ℤ) × (ℤ × ℤ) × (ℤ × ℤ) =>
          segmentSamples w.1 w.2.1 w.2.2.1 w.2.2.2) = fun _ => 5 := by
        funext w
        exact segmentSamples_length w.1 w.2.1 w.2.2.1 w.2.2.2
      rw [hconst, List.map_const', List.sum_replicate, smul_eq_mul,
        windows4_length]
      simp only [List.length_append, List.length_cons, List.length_singleton,
        List.length_nil]
      omega
    refine ⟨?_, ?_, ?_, hlen, ?_⟩
    · -- head
      rw [hsm, hw4, List.map_cons, segmentSamples_eq]
      rfl
    · -- last
      rw [hsm, List.getLast?_concat,
        List.getLast?_eq_getLast _ (List.cons_ne_nil a (b :: c :: rest))]
      rfl
    · -- membership
      intro q hq
      obtain ⟨pre, suf, hdecomp⟩ := List.append_of_mem hq
      cases suf with
      | nil =>
        have h1 : (a :: b :: c :: rest).getLast? = some q := by
          rw [hdecomp]
          exact List.getLast?_concat _
        have h2 : (a :: b :: c :: rest).getLast? = some plast :=
          List.getLast?_eq_getLast _ _
        have hq_last : plast = q := by
          rw [h1] at h2
          exact (Option.some_inj.mp h2).symm
        rw [hsm, hq_last]
        exact List.mem_append_right _ (List.mem_singleton_self _)
      | cons s1 suf' =>
        have hpoints : (a :: a :: b :: c :: rest) ++ [plast] =
            a :: (pre ++ q :: s1 :: (suf' ++ [plast])) := by
          rw [show (a :: a :: b :: c :: rest) ++ [plast] =
              a :: ((a :: b :: c :: rest) ++ [plast]) from rfl, hdecomp]
          simp
        cases hsuf : suf' ++ [plast] with
        | nil => exact absurd hsuf (by simp)
        | cons s2 suf3 =>
          rw [hsuf] at hpoints
          obtain ⟨w, hwmem, hwq⟩ := p1_mem_windows4 pre a q s1 s2 suf3
          rw [hsm]
          apply List.mem_append_left
          rw [List.mem_join]
          refine ⟨segmentSamples w.1 w.2.1 w.2.2.1 w.2.2.2, ?_, ?_⟩
          · rw [hpoints]
            exact List.mem_map_of_mem _ hwmem
          · rw [← hwq]
            exact castPt_mem_segmentSamples w.1 w.2.1 w.2.2.1 w.2.2.2
    · -- strictly longer
      rw [hlen]
      simp only [List.length_cons]
      omega

/-- C6 witness: the concrete three-cell path (0,0)–(1,0)–(2,0). -/
theorem C6_smooth_path_witness :
    (smooth_path [(0, 0), (1, 0), (2, 0)]).head? =
      some (castPt (0, 0)) ∧
    (smooth_path [(0, 0), (1, 0), (2, 0)]).getLast? =
      some (castPt (2, 0)) ∧
    castPt (1, 0) ∈ smooth_path [(0, 0), (1, 0), (2, 0)] ∧
    (smooth_path [(0, 0), (1, 0), (2, 0)]).length = 11 := by
  have h := (C6_smooth_path [(0, 0), (1, 0), (2, 0)]).2 (by norm_num)
  refine ⟨?_, ?_, h.2.2.1 (1, 0) (by norm_num), ?_⟩
  · rw [h.1]
    rfl
  · rw [h.2.1]
    rfl
  · rw [h.2.2.2.1]
    rfl

/-! ## C4: walkability of task and spawn points -/

/-- C4: the claim, as stated, is false on the code: the Prime Shields
task point (76,58) is the centre of the 6×6 shields prop, whose cells
_add_prop marks as walls, and no later corridor or door re-opens it. -/
theorem C4_counterexample :
    Point.mk 76 58 ∈ skeldTaskPoints ∧
    skeldMap.is_walkable 76 58 = false := by decide

/-- C4 (amended): after construction every spawn point is walkable, and
exactly four of the twelve task points are not: the tasks placed on
prop centres — Prime Shields (76,58), the comms Upload Data (69,69),
Swipe Card (67,43) and Submit Scan (28,19).  Every other task point is
walkable. -/
theorem C4_spawn_and_task_walkability :
    (skeldSpawnPoints.all fun p => skeldMap.is_walkable p.x p.y) = true ∧
    skeldTaskPoints.filter (fun p => !(skeldMap.is_walkable p.x p.y)) =
      [⟨76, 58⟩, ⟨69, 69⟩, ⟨67, 43⟩, ⟨28, 19⟩] := by decide

/-! ## Vision (src/game/vision.py) -/

/-- Python int() truncation towards zero. -/
noncomputable def pyInt (r : ℝ) : ℤ := if 0 ≤ r then ⌊r⌋ else ⌈r⌉

lemma pyInt_of_nonneg {r : ℝ} (h : 0 ≤ r) : pyInt r = ⌊r⌋ := if_pos h

/-- The two while-loops of is_visible normalising an angle difference:
subtract 2π while the value exceeds π, then add 2π while it is below
−π.  This is the loops' closed form: each max-of-ceil counts exactly
the iterations the corresponding loop performs. -/
noncomputable def normalizeAngle (d : ℝ) : ℝ :=
  let d1 := d - 2 * Real.pi * (max 0 ⌈(d - Real.pi) / (2 * Real.pi)⌉ : ℤ)
  d1 + 2 * Real.pi * (max 0 ⌈(-Real.pi - d1) / (2 * Real.pi)⌉ : ℤ)

/-- On inputs already in [−π, π] both loops run zero times. -/
lemma normalizeAngle_eq_self {d : ℝ} (h1 : -Real.pi ≤ d) (h2 : d ≤ Real.pi) :
    normalizeAngle d = d := by
  have hpi : 0 < Real.pi := Real.pi_pos
  have hm1 : (max 0 ⌈(d - Real.pi) / (2 * Real.pi)⌉ : ℤ) = 0 := by
    apply max_eq_left
    rw [Int.ceil_le]
    push_cast
    apply div_nonpos_of_nonpos_of_nonneg
    · linarith
    · positivity
  have hm2 : (max 0 ⌈(-Real.pi - d) / (2 * Real.pi)⌉ : ℤ) = 0 := by
    apply max_eq_left
    rw [Int.ceil_le]
    push_cast
    apply div_nonpos_of_nonpos_of_nonneg
    · linarith
    · positivity
  unfold normalizeAngle
  dsimp only
  rw [hm1]
  simp only [Int.cast_zero, mul_zero, sub_zero]
  rw [hm2]
  simp

section VisionClassical

open Classical

/-- VisionSystem.is_visible.  Gate 1: Euclidean distance at most the
vision radius 10.  Gate 2: the loop-normalised difference between
atan2(dy,dx) and the facing angle is within half the 90° FOV (π/4).
Gate 3: the raymarch at sub-cell granularity 0.5 — samples
t = i/steps for i in range(1, steps) with steps = int(dist/0.5) — hits
no wall cell (`grid[int(cy)][int(cx)] == 1`; recall grid x y here is
the Python grid[y][x]). -/
noncomputable def is_visible (observer target : PlayerState)
    (m : SpaceshipMap) : Bool :=
  let dist := observer.position.distance_to target.position
  if dist > 10 then false
  else
    let dx := target.position.x - observer.position.x
    let dy := target.position.y - observer.position.y
    let diff := normalizeAngle (atan2 dy dx - observer.facing_angle)
    if |diff| > Real.pi / 4 then false
    else
      let steps := pyInt (dist / 0.5)
      if ∃ i : ℤ, 1 ≤ i ∧ i < steps ∧
          m.grid (pyInt (observer.position.x + dx * ((i : ℝ) / (steps : ℝ))))
                 (pyInt (observer.position.y + dy * ((i : ℝ) / (steps : ℝ))))
            = 1 then false
      else true

/-- The raymarch stop condition of cast_vision_rays at distance d along
the unit direction (dx,dy): out of bounds, or a wall cell. -/
def rayStops (m : SpaceshipMap) (px py dx dy d : ℝ) : Prop :=
  ¬ (0 ≤ px + dx * d ∧ px + dx * d < (m.width : ℝ) ∧
      0 ≤ py + dy * d ∧ py + dy * d < (m.height : ℝ)) ∨
    m.grid (pyInt (px + dx * d)) (pyInt (py + dy * d)) = 1

/-- One ray of cast_vision_rays: marching from distance 1 in steps of
1.0, the endpoint is the first stopping sample, or the point at the
full vision radius 10 if no sample stops the ray. -/
noncomputable def rayHit (m : SpaceshipMap) (px py θ : ℝ) : ℝ × ℝ :=
  let dx := Real.cos θ
  let dy := Real.sin θ
  match ((List.range 10).map fun k : ℕ => ((k : ℝ) + 1)).find?
      (fun d => decide (rayStops m px py dx dy d)) with
  | some d => (px + dx * d, py + dy * d)
  | none => (px + dx * 10, py + dy * 10)

/-- VisionSystem.cast_vision_rays: the player position followed by the
16 ray endpoints across the 90° cone centred on the facing angle. -/
noncomputable def cast_vision_rays (player : PlayerState)
    (m : SpaceshipMap) : List (ℝ × ℝ) :=
  (player.position.x, player.position.y) ::
    (List.range 16).map fun i : ℕ =>
      rayHit m player.position.x player.position.y
        (player.facing_angle - (Real.pi / 2) / 2 +
          (Real.pi / 2) * (i : ℝ) / 15)

/-- Every ray endpoint is at distance at most 10 along its unit
direction: the hit parameter d lies in (0, 10]. -/
lemma rayHit_exists_d (m : SpaceshipMap) (px py θ : ℝ) :
    ∃ d : ℝ, 0 < d ∧ d ≤ 10 ∧
      rayHit m px py θ = (px + Real.cos θ * d, py + Real.sin θ * d) := by
  unfold rayHit
  dsimp only
  cases hf : ((List.range 10).map fun k : ℕ => ((k : ℝ) + 1)).find?
      (fun d => decide (rayStops m px py (Real.cos θ) (Real.sin θ) d)) with
  | none => exact ⟨10, by norm_num, le_refl _, rfl⟩
  | some d =>
    have hmem := List.mem_of_find?_eq_some hf
    rw [List.mem_map] at hmem
    obtain ⟨k, hk, hkd⟩ := hmem
    rw [List.mem_range] at hk
    refine ⟨d, ?_, ?_, rfl⟩
    · rw [← hkd]
      positivity
    · rw [← hkd]
      have hk9 : (k : ℝ) ≤ 9 := by
        exact_mod_cast Nat.le_of_lt_succ hk
      linarith

end VisionClassical

/-! ## C7: the three gates of is_visible -/

/-- Gate 1 on its own: an accepted target is within the vision radius. -/
lemma is_visible_dist_le {o t : PlayerState} {m : SpaceshipMap}
    (h : is_visible o t m = true) :
    o.position.distance_to t.position ≤ 10 := by
  unfold is_visible at h
  dsimp only at h
  by_cases h1 : o.position.distance_to t.position > 10
  · rw [if_pos h1] at h
    cases h
  · exact not_lt.mp h1

/-- C7: is_visible returns true only if all three gates pass — distance
within the radius 10, loop-normalised angle difference within π/4, and
no wall cell at any raymarch sample i/steps. -/
theorem C7_is_visible_gates (o t : PlayerState) (m : SpaceshipMap)
    (h : is_visible o t m = true) :
    o.position.distance_to t.position ≤ 10 ∧
    |normalizeAngle (atan2 (t.position.y - o.position.y)
        (t.position.x - o.position.x) - o.facing_angle)| ≤ Real.pi / 4 ∧
    ∀ i : ℤ, 1 ≤ i →
      i < pyInt (o.position.distance_to t.position / 0.5) →
      m.grid
        (pyInt (o.position.x + (t.position.x - o.position.x) *
          ((i : ℝ) / ((pyInt (o.position.distance_to t.position / 0.5) : ℤ) : ℝ))))
        (pyInt (o.position.y + (t.position.y - o.position.y) *
          ((i : ℝ) / ((pyInt (o.position.distance_to t.position / 0.5) : ℤ) : ℝ))))
        ≠ 1 := by
  have hdist := is_visible_dist_le h
  unfold is_visible at h
  dsimp only at h
  rw [if_neg (not_lt.mpr hdist)] at h
  by_cases h2 : |normalizeAngle (atan2 (t.position.y - o.position.y)
      (t.position.x - o.position.x) - o.facing_angle)| > Real.pi / 4
  · rw [if_pos h2] at h
    cases h
  · rw [if_neg h2] at h
    refine ⟨hdist, not_lt.mp h2, ?_⟩
    intro i hi1 hi2 hgrid
    rw [if_pos ⟨i, hi1, hi2, hgrid⟩] at h
    cases h

/-- Concrete visibility scenario: observer at (5,5) facing 0, target
0.4 units straight ahead. -/
def visObs : PlayerState := mkPlayer "o" 5 5 false true 10

def visTgt : PlayerState := mkPlayer "t" 5.4 5 false true 10

lemma visObsTgt_dist : visObs.position.distance_to visTgt.position = 0.4 := by
  show Real.sqrt (((5 : ℝ) - 5.4) ^ 2 + ((5 : ℝ) - 5) ^ 2) = 0.4
  rw [show ((5 : ℝ) - 5.4) ^ 2 + ((5 : ℝ) - 5) ^ 2 = (0.4 : ℝ) ^ 2 by norm_num]
  exact Real.sqrt_sq (by norm_num)

lemma vis_true : is_visible visObs visTgt skeldMap = true := by
  unfold is_visible
  dsimp only
  rw [visObsTgt_dist]
  rw [if_neg (by norm_num : ¬ (0.4 : ℝ) > 10)]
  rw [show visTgt.position.x - visObs.position.x = 0.4 by
    show (5.4 : ℝ) - 5 = 0.4
    norm_num]
  rw [show visTgt.position.y - visObs.position.y = 0 by
    show (5 : ℝ) - 5 = 0
    norm_num]
  rw [show atan2 0 0.4 = 0 from by
    unfold atan2
    rw [show (⟨0.4, 0⟩ : ℂ) = ((0.4 : ℝ) : ℂ) from rfl]
    exact Complex.arg_ofReal_of_nonneg (by norm_num)]
  rw [show visObs.facing_angle = 0 from rfl]
  rw [show (0 : ℝ) - 0 = 0 by norm_num]
  rw [normalizeAngle_eq_self (by linarith [Real.pi_pos]) Real.pi_pos.le]
  rw [if_neg (by
    rw [abs_zero]
    push_neg
    positivity)]
  rw [show pyInt ((0.4 : ℝ) / 0.5) = 0 from by
    rw [pyInt_of_nonneg (by norm_num)]
    rw [show (0.4 : ℝ) / 0.5 = 0.8 by norm_num]
    rw [Int.floor_eq_zero_iff]
    constructor <;> norm_num]
  rw [if_neg (by
    rintro ⟨i, hi1, hi2, -⟩
    omega)]

/-- C7 witness: the concrete scenario is accepted and, via the gate
theorem, within the vision radius. -/
theorem C7_is_visible_gates_witness :
    is_visible visObs visTgt skeldMap = true ∧
    visObs.position.distance_to visTgt.position ≤ 10 ∧
    |normalizeAngle (atan2 (visTgt.position.y - visObs.position.y)
        (visTgt.position.x - visObs.position.x) - visObs.facing_angle)| ≤
      Real.pi / 4 :=
  ⟨vis_true, (C7_is_visible_gates visObs visTgt skeldMap vis_true).1,
    (C7_is_visible_gates visObs visTgt skeldMap vis_true).2.1⟩

/-! ## C8: cast_vision_rays versus is_visible -/

/-- Modelled from the spec: the repository has no point-in-polygon test;
the spec demands that accepted targets "lie within the polygon
cast_vision_rays produces".  We use the most generous reading —
membership in the convex hull of the polygon's vertex list.  Every
region bounded by the closed polygon is contained in that hull, so a
point outside the hull is outside the polygon under any reading. -/
def inVisionPolygon (pts : List (ℝ × ℝ)) (q : ℝ × ℝ) : Prop :=
  q ∈ convexHull ℝ {p | p ∈ pts}

/-- Observer in the open cafeteria row y = 6 facing +x; the target sits
exactly at the vision radius straight ahead, halfway between rays 7 and
8 of the fan. -/
def c8Obs : PlayerState := mkPlayer "o" 41 6 false true 10

def c8Tgt : PlayerState := mkPlayer "t" 51 6 false true 10

lemma c8_dist : c8Obs.position.distance_to c8Tgt.position = 10 := by
  show Real.sqrt (((41 : ℝ) - 51) ^ 2 + ((6 : ℝ) - 6) ^ 2) = 10
  rw [show ((41 : ℝ) - 51) ^ 2 + ((6 : ℝ) - 6) ^ 2 = (10 : ℝ) ^ 2 by norm_num]
  exact Real.sqrt_sq (by norm_num)

lemma floor_eq_of {r : ℝ} {n : ℤ} (h1 : (n : ℝ) ≤ r) (h2 : r < n + 1) :
    ⌊r⌋ = n := Int.floor_eq_iff.mpr ⟨h1, h2⟩

/-- The whole cafeteria row y = 6, x = 41..50, is open floor. -/
lemma c8_row_open : ∀ x : ℤ, 41 ≤ x → x < 51 → skeldMap.grid x 6 ≠ 1 := by
  intro x hx1 hx2
  interval_cases x <;> decide

lemma c8_vis_true : is_visible c8Obs c8Tgt skeldMap = true := by
  unfold is_visible
  dsimp only
  rw [c8_dist]
  rw [if_neg (by norm_num : ¬ (10 : ℝ) > 10)]
  rw [show c8Tgt.position.x - c8Obs.position.x = 10 by
    show (51 : ℝ) - 41 = 10
    norm_num]
  rw [show c8Tgt.position.y - c8Obs.position.y = 0 by
    show (6 : ℝ) - 6 = 0
    norm_num]
  rw [show atan2 0 10 = 0 from by
    unfold atan2
    rw [show (⟨10, 0⟩ : ℂ) = ((10 : ℝ) : ℂ) from rfl]
    exact Complex.arg_ofReal_of_nonneg (by norm_num)]
  rw [show c8Obs.facing_angle = 0 from rfl]
  rw [show (0 : ℝ) - 0 = 0 by norm_num]
  rw [normalizeAngle_eq_self (by linarith [Real.pi_pos]) Real.pi_pos.le]
  rw [if_neg (by
    rw [abs_zero]
    push_neg
    positivity)]
  rw [show pyInt ((10 : ℝ) / 0.5) = 20 from by
    rw [pyInt_of_nonneg (by norm_num)]
    exact floor_eq_of (by norm_num) (by norm_num)]
  have hray : ¬ ∃ i : ℤ, 1 ≤ i ∧ i < 20 ∧
      skeldMap.grid (pyInt (c8Obs.position.x + 10 * ((i : ℝ) / ((20 : ℤ) : ℝ))))
        (pyInt (c8Obs.position.y + 0 * ((i : ℝ) / ((20 : ℤ) : ℝ)))) = 1 := by
    rintro ⟨i, hi1, hi2, hgrid⟩
    have hiR1 : (1 : ℝ) ≤ (i : ℝ) := by exact_mod_cast hi1
    have hiR2 : (i : ℝ) ≤ 19 := by
      have : i ≤ 19 := by omega
      exact_mod_cast this
    have hy : pyInt (c8Obs.position.y + 0 * ((i : ℝ) / ((20 : ℤ) : ℝ))) = 6 := by
      rw [show c8Obs.position.y + 0 * ((i : ℝ) / ((20 : ℤ) : ℝ)) = 6 from by
        show (6 : ℝ) + _ = 6
        ring]
      rw [pyInt_of_nonneg (by norm_num)]
      exact floor_eq_of (by norm_num) (by norm_num)
    have hxval : c8Obs.position.x + 10 * ((i : ℝ) / ((20 : ℤ) : ℝ)) =
        41 + (i : ℝ) / 2 := by
      show (41 : ℝ) + _ = _
      push_cast
      ring
    have hx1 : (41 : ℤ) ≤ pyInt (c8Obs.position.x +
        10 * ((i : ℝ) / ((20 : ℤ) : ℝ))) := by
      rw [hxval, pyInt_of_nonneg (by linarith), Int.le_floor]
      push_cast
      linarith
    have hx2 : pyInt (c8Obs.position.x +
        10 * ((i : ℝ) / ((20 : ℤ) : ℝ))) < 51 := by
      rw [hxval, pyInt_of_nonneg (by linarith), Int.floor_lt]
      push_cast
      linarith
    rw [hy] at hgrid
    exact c8_row_open _ hx1 hx2 hgrid
  rw [if_neg hray]

/-- cos of a rational multiple of π with 1/60 ≤ |c| ≤ 1 is at most
cos(π/60). -/
lemma cos_rat_pi_le {c : ℝ} (h1 : 1 / 60 ≤ |c|) (h2 : |c| ≤ 1) :
    Real.cos (c * Real.pi) ≤ Real.cos (Real.pi / 60) := by
  have hpi := Real.pi_pos
  rw [← Real.cos_abs (c * Real.pi), abs_mul, abs_of_nonneg hpi.le]
  apply Real.cos_le_cos_of_nonneg_of_le_pi
  · positivity
  · nlinarith [abs_nonneg c]
  · calc Real.pi / 60 = (1 / 60) * Real.pi := by ring
    _ ≤ |c| * Real.pi := mul_le_mul_of_nonneg_right h1 hpi.le

/-- Every vertex of the c8 observer's vision polygon has x-coordinate
at most 41 + 10·cos(π/60): no ray of the fan points straight along the
x-axis, the two nearest rays being π/60 off it. -/
lemma c8_vertices_bound :
    ∀ q ∈ cast_vision_rays c8Obs skeldMap,
      q.1 ≤ 41 + 10 * Real.cos (Real.pi / 60) := by
  have hpi := Real.pi_pos
  have hcosnn : 0 ≤ Real.cos (Real.pi / 60) :=
    Real.cos_nonneg_of_mem_Icc ⟨by nlinarith, by nlinarith⟩
  intro q hq
  unfold cast_vision_rays at hq
  rcases List.mem_cons.mp hq with hq0 | hqm
  · rw [hq0]
    show (41 : ℝ) ≤ _
    nlinarith
  · rw [List.mem_map] at hqm
    obtain ⟨i, hi, heq⟩ := hqm
    rw [List.mem_range] at hi
    obtain ⟨d, hd0, hd10, hrh⟩ := rayHit_exists_d skeldMap
      c8Obs.position.x c8Obs.position.y
      (c8Obs.facing_angle - (Real.pi / 2) / 2 +
        (Real.pi / 2) * (i : ℝ) / 15)
    rw [hrh] at heq
    have hθ : c8Obs.facing_angle - (Real.pi / 2) / 2 +
        (Real.pi / 2) * (i : ℝ) / 15 =
        ((2 * (i : ℝ) - 15) / 60) * Real.pi := by
      rw [show c8Obs.facing_angle = 0 from rfl]
      ring
    have hiR0 : (0 : ℝ) ≤ (i : ℝ) := Nat.cast_nonneg i
    have hiR15 : (i : ℝ) ≤ 15 := by
      have : i ≤ 15 := by omega
      exact_mod_cast this
    have habs : |(2 * (i : ℝ) - 15) / 60| = |2 * (i : ℝ) - 15| / 60 := by
      rw [abs_div, abs_of_nonneg (by norm_num : (0:ℝ) ≤ 60)]
    have hnum : 1 ≤ |2 * (i : ℝ) - 15| ∧ |2 * (i : ℝ) - 15| ≤ 15 := by
      rcases Nat.lt_or_ge i 8 with h | h
      · have hiR : (i : ℝ) ≤ 7 := by
          have : i ≤ 7 := by omega
          exact_mod_cast this
        rw [abs_of_nonpos (by linarith)]
        constructor <;> linarith
      · have hiR : (8 : ℝ) ≤ (i : ℝ) := by exact_mod_cast h
        rw [abs_of_nonneg (by linarith)]
        constructor <;> linarith
    have hcosb : Real.cos (c8Obs.facing_angle - (Real.pi / 2) / 2 +
        (Real.pi / 2) * (i : ℝ) / 15) ≤ Real.cos (Real.pi / 60) := by
      rw [hθ]
      apply cos_rat_pi_le
      · rw [habs]
        linarith [hnum.1]
      · rw [habs]
        linarith [hnum.2]
    have hcos0 : 0 ≤ Real.cos (c8Obs.facing_angle - (Real.pi / 2) / 2 +
        (Real.pi / 2) * (i : ℝ) / 15) := by
      rw [hθ]
      apply Real.cos_nonneg_of_mem_Icc
      constructor
      · nlinarith
      · nlinarith
    rw [← heq]
    show c8Obs.position.x + _ * d ≤ _
    rw [show c8Obs.position.x = (41 : ℝ) from rfl]
    nlinarith

/-- The target of the c8 scenario lies outside every reading of the
vision polygon: all vertices are inside the halfplane
x ≤ 41 + 10·cos(π/60) < 51. -/
lemma c8_not_in_polygon :
    ¬ inVisionPolygon (cast_vision_rays c8Obs skeldMap) (51, 6) := by
  intro hmem
  have hsub : {p : ℝ × ℝ | p ∈ cast_vision_rays c8Obs skeldMap} ⊆
      {p : ℝ × ℝ | p.1 ≤ 41 + 10 * Real.cos (Real.pi / 60)} :=
    fun p hp => c8_vertices_bound p hp
  have hhull := convexHull_min hsub
    (convex_halfspace_le ⟨fun a b => rfl, fun c a => rfl⟩ _) hmem
  have hcos1 : Real.cos (Real.pi / 60) < 1 := by
    rcases lt_or_eq_of_le (Real.cos_le_one (Real.pi / 60)) with h | h
    · exact h
    · exfalso
      have := (Real.cos_eq_one_iff_of_lt_of_lt
        (by nlinarith [Real.pi_pos] : -(2 * Real.pi) < Real.pi / 60)
        (by nlinarith [Real.pi_pos] : Real.pi / 60 < 2 * Real.pi)).mp h
      nlinarith [Real.pi_pos]
  have h51 : ((51 : ℝ), (6 : ℝ)).1 ≤ 41 + 10 * Real.cos (Real.pi / 60) := hhull
  simp only at h51
  nlinarith

/-- C8: the claim, as stated, is false on the code: in the open
cafeteria the target at distance exactly 10 straight ahead is accepted
by is_visible, yet falls outside the 16-ray polygon, whose nearest
vertices sit at angles ±π/60 off the line of sight. -/
theorem C8_counterexample :
    is_visible c8Obs c8Tgt skeldMap = true ∧
    ¬ inVisionPolygon (cast_vision_rays c8Obs skeldMap)
      (c8Tgt.position.x, c8Tgt.position.y) := by
  refine ⟨c8_vis_true, ?_⟩
  rw [show (c8Tgt.position.x, c8Tgt.position.y) = ((51 : ℝ), (6 : ℝ)) from rfl]
  exact c8_not_in_polygon

/-- C8 (amended): the two computations agree on the vision radius —
every vertex of cast_vision_rays lies in the closed disc of radius 10
around the observer, and every target is_visible accepts lies in that
same disc.  (Containment in the polygon itself fails, see the
counterexample: the 16-ray fan cuts inside the disc between rays.) -/
theorem C8_vision_disc (o t : PlayerState) (m : SpaceshipMap) :
    (∀ q ∈ cast_vision_rays o m,
      (q.1 - o.position.x) ^ 2 + (q.2 - o.position.y) ^ 2 ≤ 10 ^ 2) ∧
    (is_visible o t m = true → o.position.distance_to t.position ≤ 10) := by
  constructor
  · intro q hq
    unfold cast_vision_rays at hq
    rcases List.mem_cons.mp hq with hq0 | hqm
    · rw [hq0]
      norm_num
    · rw [List.mem_map] at hqm
      obtain ⟨i, -, heq⟩ := hqm
      obtain ⟨d, hd0, hd10, hrh⟩ := rayHit_exists_d m
        o.position.x o.position.y
        (o.facing_angle - (Real.pi / 2) / 2 + (Real.pi / 2) * (i : ℝ) / 15)
      rw [hrh] at heq
      rw [← heq]
      have hpyth := Real.sin_sq_add_cos_sq
        (o.facing_angle - (Real.pi / 2) / 2 + (Real.pi / 2) * (i : ℝ) / 15)
      simp only
      have h1 : ∀ a b : ℝ, a + b - a = b := fun a b => by ring
      rw [h1, h1]
      have hd2 : d ^ 2 ≤ 100 := by nlinarith
      calc (Real.cos (o.facing_angle - (Real.pi / 2) / 2 +
              (Real.pi / 2) * (i : ℝ) / 15) * d) ^ 2 +
            (Real.sin (o.facing_angle - (Real.pi / 2) / 2 +
              (Real.pi / 2) * (i : ℝ) / 15) * d) ^ 2
          = (Real.sin (o.facing_angle - (Real.pi / 2) / 2 +
              (Real.pi / 2) * (i : ℝ) / 15) ^ 2 +
             Real.cos (o.facing_angle - (Real.pi / 2) / 2 +
              (Real.pi / 2) * (i : ℝ) / 15) ^ 2) * d ^ 2 := by ring
        _ = 1 * d ^ 2 := by rw [hpyth]
        _ ≤ 10 ^ 2 := by nlinarith
  · exact is_visible_dist_le

/-- C8 witness: the c8 scenario instantiates both halves — the head
vertex of the polygon and the accepted target. -/
theorem C8_vision_disc_witness :
    is_visible c8Obs c8Tgt skeldMap = true ∧
    c8Obs.position.distance_to c8Tgt.position ≤ 10 ∧
    ((41 : ℝ) - c8Obs.position.x) ^ 2 + ((6 : ℝ) - c8Obs.position.y) ^ 2 ≤
      10 ^ 2 := by
  refine ⟨c8_vis_true, (C8_vision_disc c8Obs c8Tgt skeldMap).2 c8_vis_true, ?_⟩
  exact (C8_vision_disc c8Obs c8Tgt skeldMap).1
    (c8Obs.position.x, c8Obs.position.y)
    (by unfold cast_vision_rays; exact List.mem_cons_self _ _)

/-! ## A* pathfinding (src/game/pathfinding.py) -/

/-- The 8 directions of Pathfinder.get_neighbors, in source order. -/
def directions : List (ℤ × ℤ) :=
  [(0, 1), (0, -1), (1, 0), (-1, 0), (1, 1), (1, -1), (-1, 1), (-1, -1)]

/-- Pathfinder.get_neighbors: in-bounds walkable 8-neighbours, with the
no-corner-cutting rule for diagonal moves. -/
def get_neighbors (m : SpaceshipMap) (p : ℤ × ℤ) : List (ℤ × ℤ) :=
  (directions.filter fun d =>
    decide (0 ≤ p.1 + d.1 ∧ p.1 + d.1 < m.width ∧
      0 ≤ p.2 + d.2 ∧ p.2 + d.2 < m.height) &&
    m.is_walkable (p.1 + d.1) (p.2 + d.2) &&
    (if |d.1| = 1 ∧ |d.2| = 1 then
      m.is_walkable (p.1 + d.1) p.2 && m.is_walkable p.1 (p.2 + d.2)
    else true)).map fun d => (p.1 + d.1, p.2 + d.2)

/-- One A* search node: its cell, its g-cost, the squared Euclidean
heuristic distance to the resolved goal (the source stores
h = √hsq as a float), and its parent chain. -/
inductive ANode where
  | root (pos : ℤ × ℤ) (g : ℚ) (hsq : ℤ)
  | child (pos : ℤ × ℤ) (g : ℚ) (hsq : ℤ) (parent : ANode)

def ANode.pos : ANode → ℤ × ℤ
  | .root p _ _ => p
  | .child p _ _ _ => p

def ANode.g : ANode → ℚ
  | .root _ g _ => g
  | .child _ g _ _ => g

def ANode.hsq : ANode → ℤ
  | .root _ _ h => h
  | .child _ _ h _ => h

/-- The cell chain of a node, newest first; reversing it is exactly the
source's parent-walk path reconstruction. -/
def ANode.posList : ANode → List (ℤ × ℤ)
  | .root p _ _ => [p]
  | .child p _ _ par => p :: par.posList

/-- Exact decision of g₁ + √h₁ < g₂ + √h₂ for integer h₁,h₂ ≥ 0 and
rational g: the idealised form of the float comparison Node.__lt__
(f = g + h with h the Euclidean heuristic).  Only the fact that popMin
selects some element matters for the verified properties; the order
itself decides which optimal-looking node is expanded first. -/
def fLt (g1 : ℚ) (h1 : ℤ) (g2 : ℚ) (h2 : ℤ) : Bool :=
  let q := g2 - g1
  if 0 ≤ q then
    let e := (h1 : ℚ) - (h2 : ℚ) - q ^ 2
    if e < 0 then true else decide (e ^ 2 < 4 * q ^ 2 * (h2 : ℚ))
  else
    let e := (h2 : ℚ) - (h1 : ℚ) - q ^ 2
    if e ≤ 0 then false else decide (4 * q ^ 2 * (h1 : ℚ) < e ^ 2)

/-- heapq.heappop: remove a minimal element (the earliest minimal one)
of the open list. -/
def popMin : List ANode → Option (ANode × List ANode)
  | [] => none
  | x :: xs =>
    match popMin xs with
    | none => some (x, [])
    | some (mn, rest) =>
      if fLt mn.g mn.hsq x.g x.hsq then some (mn, x :: rest)
      else some (x, xs)

/-- node_cache lookup (only the stored g-cost is ever read). -/
def cacheGet (c : List ((ℤ × ℤ) × ℚ)) (k : ℤ × ℤ) : Option ℚ :=
  (c.find? fun kv => kv.1 == k).map Prod.snd

/-- node_cache assignment: the new binding shadows any older one. -/
def cacheSet (c : List ((ℤ × ℤ) × ℚ)) (k : ℤ × ℤ) (v : ℚ) :
    List ((ℤ × ℤ) × ℚ) :=
  (k, v) :: c

/-- The A* working state: open list (heap contents), closed set and
g-cost cache. -/
structure AState where
  openl : List ANode
  closed : List (ℤ × ℤ)
  cache : List ((ℤ × ℤ) × ℚ)

/-- The squared heuristic distance to the goal. -/
def hsqTo (p e : ℤ × ℤ) : ℤ := (p.1 - e.1) ^ 2 + (p.2 - e.2) ^ 2

/-- Relaxation of a single neighbour n of the expanded node cur: skip
if closed; otherwise push (and cache) when uncached or strictly
improving, with cost 1 for cardinal and 1.414 for diagonal moves. -/
def relaxStep (endPos : ℤ × ℤ) (cur : ANode) (st : AState) (n : ℤ × ℤ) :
    AState :=
  if n ∈ st.closed then st
  else
    let move_cost : ℚ :=
      if n.1 = cur.pos.1 ∨ n.2 = cur.pos.2 then 1 else 1.414
    let new_g := cur.g + move_cost
    let push : AState :=
      { st with
        openl := st.openl ++ [ANode.child n new_g (hsqTo n endPos) cur],
        cache := cacheSet st.cache n new_g }
    match cacheGet st.cache n with
    | none => push
    | some gc => if new_g < gc then push else st

/-- The while-loop of Pathfinder.find_path.  `fuel` bounds the number
of iterations; find_path supplies a fuel provably larger than the
number of iterations any run can perform, so the fuel-exhaustion
branch is unreachable there. -/
def astarLoop (m : SpaceshipMap) (endPos : ℤ × ℤ) :
    ℕ → AState → List (ℤ × ℤ)
  | 0, _ => []
  | fuel + 1, st =>
    match popMin st.openl with
    | none => []
    | some (cur, rest) =>
      if cur.pos = endPos then cur.posList.reverse
      else
        let st1 : AState :=
          { openl := rest, closed := cur.pos :: st.closed, cache := st.cache }
        astarLoop m endPos fuel
          ((get_neighbors m cur.pos).foldl (relaxStep endPos cur) st1)

/-- The integers from a to b inclusive. -/
def rangeInt (a b : ℤ) : List ℤ :=
  (List.range (b - a + 1).toNat).map fun k => a + (k : ℤ)

/-- The goal-substitution scan order: for r in range(1,5), for dy in
range(-r,r+1), for dx in range(-r,r+1) — expanding (full) squares in
row-major order. -/
def squareScan (e : ℤ × ℤ) : List (ℤ × ℤ) :=
  (List.range 4).bind fun r0 =>
    (rangeInt (-(r0 + 1 : ℤ)) (r0 + 1)).bind fun dy =>
      (rangeInt (-(r0 + 1 : ℤ)) (r0 + 1)).map fun dx =>
        (e.1 + dx, e.2 + dy)

/-- The resolved goal: the goal itself when walkable, otherwise the
first walkable cell in squareScan order, if any. -/
def resolveGoal (m : SpaceshipMap) (e : ℤ × ℤ) : Option (ℤ × ℤ) :=
  if m.is_walkable e.1 e.2 then some e
  else (squareScan e).find? fun p => m.is_walkable p.1 p.2

/-- The iteration budget: provably more than any run can use (see the
potential argument below). -/
def astarFuel (m : SpaceshipMap) : ℕ :=
  let N := (m.width * m.height).toNat + 1
  N * (707 * N + 2) + 2

/-- Pathfinder.find_path. -/
def find_path (m : SpaceshipMap) (start e : ℤ × ℤ) : List (ℤ × ℤ) :=
  match resolveGoal m e with
  | none => []
  | some endPos =>
    astarLoop m endPos (astarFuel m)
      { openl := [ANode.root start 0 0], closed := [],
        cache := [(start, 0)] }

/-! ## C5: find_path — counterexample to "nearest substitute" -/

/-- C5: the claim, as stated, is false on the code: the goal (27,17) is
unwalkable (medbay bed prop corner), the cardinal neighbour (26,17) is
walkable at squared distance 1, yet the row-major square scan returns
the diagonal cell (26,16) at squared distance 2, and find_path ends
there — the resolved substitute is not the nearest walkable cell. -/
theorem C5_counterexample :
    skeldMap.is_walkable 27 17 = false ∧
    skeldMap.is_walkable 26 17 = true ∧
    hsqTo (26, 17) (27, 17) = 1 ∧
    hsqTo (26, 16) (27, 17) = 2 ∧
    resolveGoal skeldMap (27, 17) = some (26, 16) ∧
    find_path skeldMap (26, 16) (27, 17) = [(26, 16)] := by decide

/-! ### Soundness of the A* loop -/

/-- q is an admissible move from p. -/
def Adj (m : SpaceshipMap) (p q : ℤ × ℤ) : Prop := q ∈ get_neighbors m p

/-- Any neighbour is in bounds and walkable, and differs from its
origin by one of the eight unit steps. -/
lemma get_neighbors_spec {m : SpaceshipMap} {p q : ℤ × ℤ}
    (h : q ∈ get_neighbors m p) :
    (0 ≤ q.1 ∧ q.1 < m.width ∧ 0 ≤ q.2 ∧ q.2 < m.height) ∧
    m.is_walkable q.1 q.2 = true ∧
    ∃ d ∈ directions, q = (p.1 + d.1, p.2 + d.2) := by
  unfold get_neighbors at h
  rw [List.mem_map] at h
  obtain ⟨d, hd, hq⟩ := h
  rw [List.mem_filter] at hd
  obtain ⟨hdmem, hcond⟩ := hd
  rw [Bool.and_eq_true, Bool.and_eq_true] at hcond
  obtain ⟨⟨hbounds, hwalk⟩, -⟩ := hcond
  rw [decide_eq_true_eq] at hbounds
  subst hq
  exact ⟨hbounds, hwalk, d, hdmem, rfl⟩

/-- Well-formed parent chains: rooted at start, each link being a
neighbour step. -/
inductive ChainOK (m : SpaceshipMap) (start : ℤ × ℤ) : ANode → Prop where
  | root (g : ℚ) (h : ℤ) : ChainOK m start (ANode.root start g h)
  | child (p : ℤ × ℤ) (g : ℚ) (h : ℤ) (par : ANode)
      (hpar : ChainOK m start par)
      (hadj : p ∈ get_neighbors m par.pos) :
      ChainOK m start (ANode.child p g h par)

lemma posList_ne_nil (nd : ANode) : nd.posList ≠ [] := by
  cases nd <;> simp [ANode.posList]

lemma posList_head (nd : ANode) : nd.posList.head? = some nd.pos := by
  cases nd <;> rfl

lemma ChainOK.last {m : SpaceshipMap} {start : ℤ × ℤ} {nd : ANode}
    (h : ChainOK m start nd) : nd.posList.getLast? = some start := by
  induction h with
  | root g h => rfl
  | child p g h par hpar hadj ih =>
    show (p :: par.posList).getLast? = some start
    cases hpl : par.posList with
    | nil => exact absurd hpl (posList_ne_nil par)
    | cons b bs =>
      rw [hpl] at ih
      rw [List.getLast?_cons_cons]
      exact ih

lemma ChainOK.chain {m : SpaceshipMap} {start : ℤ × ℤ} {nd : ANode}
    (h : ChainOK m start nd) :
    List.Chain' (fun a b => Adj m b a) nd.posList := by
  induction h with
  | root g h => simp [ANode.posList]
  | child p g h par hpar hadj ih =>
    show List.Chain' _ (p :: par.posList)
    rw [List.chain'_cons']
    refine ⟨?_, ih⟩
    intro y hy
    rw [posList_head] at hy
    simp only [Option.mem_def, Option.some_inj] at hy
    subst hy
    exact hadj

lemma ChainOK.mem_walkable {m : SpaceshipMap} {start : ℤ × ℤ} {nd : ANode}
    (h : ChainOK m start nd) (hstart : m.is_walkable start.1 start.2 = true) :
    ∀ q ∈ nd.posList, m.is_walkable q.1 q.2 = true := by
  induction h with
  | root g h =>
    intro q hq
    simp only [ANode.posList, List.mem_singleton] at hq
    rw [hq]
    exact hstart
  | child p g h par hpar hadj ih =>
    intro q hq
    rcases List.mem_cons.mp hq with rfl | hq
    · exact (get_neighbors_spec hadj).2.1
    · exact ih q hq

lemma ChainOK.reach {m : SpaceshipMap} {start : ℤ × ℤ} {nd : ANode}
    (h : ChainOK m start nd) :
    Relation.ReflTransGen (Adj m) start nd.pos := by
  induction h with
  | root g h => exact Relation.ReflTransGen.refl
  | child p g h par hpar hadj ih => exact ih.tail hadj

lemma popMin_none {l : List ANode} (h : popMin l = none) : l = [] := by
  cases l with
  | nil => rfl
  | cons a as =>
    exfalso
    unfold popMin at h
    cases hm : popMin as with
    | none =>
      rw [hm] at h
      cases h
    | some mr =>
      obtain ⟨mn, r⟩ := mr
      rw [hm] at h
      dsimp only at h
      split_ifs at h

/-- popMin returns a permutation split of the list. -/
lemma popMin_perm : ∀ {l : List ANode} {x : ANode} {rest : List ANode},
    popMin l = some (x, rest) → l.Perm (x :: rest) := by
  intro l
  induction l with
  | nil => intro x rest h; cases h
  | cons a as ih =>
    intro x rest h
    unfold popMin at h
    cases hm : popMin as with
    | none =>
      rw [hm] at h
      dsimp only at h
      rw [Option.some_inj] at h
      rw [popMin_none hm]
      cases h
      exact List.Perm.refl _
    | some mr =>
      obtain ⟨mn, mrest⟩ := mr
      rw [hm] at h
      dsimp only at h
      have hperm := ih hm
      by_cases hf : fLt mn.g mn.hsq a.g a.hsq
      · rw [if_pos hf, Option.some_inj] at h
        cases h
        exact (hperm.cons a).trans (List.Perm.swap _ _ _)
      · rw [if_neg hf, Option.some_inj] at h
        cases h
        exact List.Perm.refl _

/-- The move cost used by relaxStep. -/
def moveCost (cur : ANode) (n : ℤ × ℤ) : ℚ :=
  if n.1 = cur.pos.1 ∨ n.2 = cur.pos.2 then 1 else 1.414

/-- The node pushed by relaxStep when n is admitted. -/
def pushNode (endPos : ℤ × ℤ) (cur : ANode) (n : ℤ × ℤ) : ANode :=
  ANode.child n (cur.g + moveCost cur n) (hsqTo n endPos) cur

/-- The state after relaxStep admits n. -/
def pushState (endPos : ℤ × ℤ) (cur : ANode) (st : AState) (n : ℤ × ℤ) :
    AState :=
  { st with openl := st.openl ++ [pushNode endPos cur n],
            cache := cacheSet st.cache n (cur.g + moveCost cur n) }

lemma relaxStep_eq (endPos : ℤ × ℤ) (cur : ANode) (st : AState) (n : ℤ × ℤ) :
    relaxStep endPos cur st n =
      if n ∈ st.closed then st
      else
        match cacheGet st.cache n with
        | none => pushState endPos cur st n
        | some gc =>
          if cur.g + moveCost cur n < gc then pushState endPos cur st n
          else st := rfl

lemma relaxStep_chainOK {m : SpaceshipMap} {start endPos : ℤ × ℤ}
    {cur : ANode} (hcur : ChainOK m start cur) {st : AState}
    (hst : ∀ nd ∈ st.openl, ChainOK m start nd) {n : ℤ × ℤ}
    (hn : n ∈ get_neighbors m cur.pos) :
    ∀ nd ∈ (relaxStep endPos cur st n).openl, ChainOK m start nd := by
  have hpush : ∀ nd ∈ (pushState endPos cur st n).openl, ChainOK m start nd := by
    intro nd hnd
    rcases List.mem_append.mp hnd with h | h
    · exact hst nd h
    · rw [List.mem_singleton] at h
      subst h
      exact ChainOK.child _ _ _ _ hcur hn
  rw [relaxStep_eq]
  by_cases hc : n ∈ st.closed
  · rw [if_pos hc]; exact hst
  · rw [if_neg hc]
    cases hg : cacheGet st.cache n with
    | none => exact hpush
    | some gc =>
      dsimp only
      by_cases himp : cur.g + moveCost cur n < gc
      · rw [if_pos himp]; exact hpush
      · rw [if_neg himp]; exact hst

lemma foldl_relax_chainOK {m : SpaceshipMap} {start endPos : ℤ × ℤ}
    {cur : ANode} (hcur : ChainOK m start cur) :
    ∀ (ns : List (ℤ × ℤ)), (∀ n ∈ ns, n ∈ get_neighbors m cur.pos) →
    ∀ (st : AState), (∀ nd ∈ st.openl, ChainOK m start nd) →
    ∀ nd ∈ (ns.foldl (relaxStep endPos cur) st).openl, ChainOK m start nd := by
  intro ns
  induction ns with
  | nil => intro _ st hst; exact hst
  | cons a as ih =>
    intro hns st hst
    rw [List.foldl_cons]
    exact ih (fun n hn => hns n (List.mem_cons_of_mem a hn))
      (relaxStep endPos cur st a)
      (relaxStep_chainOK hcur hst (hns a (List.mem_cons_self a as)))

/-- Whatever the fuel, a nonempty result of the A* loop is the
reversed position chain of a well-formed node ending at the goal. -/
lemma astarLoop_sound {m : SpaceshipMap} {start endPos : ℤ × ℤ} :
    ∀ (fuel : ℕ) (st : AState), (∀ nd ∈ st.openl, ChainOK m start nd) →
    astarLoop m endPos fuel st ≠ [] →
    ∃ nd : ANode, ChainOK m start nd ∧ nd.pos = endPos ∧
      astarLoop m endPos fuel st = nd.posList.reverse := by
  intro fuel
  induction fuel with
  | zero => intro st _ hne; exact absurd rfl hne
  | succ fuel ih =>
    intro st hst hne
    cases hp : popMin st.openl with
    | none =>
      exfalso
      apply hne
      unfold astarLoop
      rw [hp]
    | some pr =>
      obtain ⟨cur, rest⟩ := pr
      have hloop : astarLoop m endPos (fuel + 1) st =
          if cur.pos = endPos then cur.posList.reverse
          else astarLoop m endPos fuel
            ((get_neighbors m cur.pos).foldl (relaxStep endPos cur)
              { openl := rest, closed := cur.pos :: st.closed,
                cache := st.cache }) := by
        conv_lhs => unfold astarLoop
        rw [hp]

      have hcur : ChainOK m start cur :=
        hst cur ((popMin_perm hp).mem_iff.mpr (List.mem_cons_self _ _))
      by_cases he : cur.pos = endPos
      · rw [hloop, if_pos he]
        exact ⟨cur, hcur, he, rfl⟩
      · rw [hloop, if_neg he] at hne ⊢
        apply ih
        · apply foldl_relax_chainOK hcur _ (fun n hn => hn)
          intro nd hnd
          exact hst nd
            ((popMin_perm hp).mem_iff.mpr (List.mem_cons_of_mem cur hnd))
        · exact hne

/-- Packaging: a nonempty find_path result comes from a well-formed
chain to the resolved goal. -/
lemma find_path_sound {m : SpaceshipMap} {start e : ℤ × ℤ}
    (hne : find_path m start e ≠ []) :
    ∃ endPos nd, resolveGoal m e = some endPos ∧ ChainOK m start nd ∧
      nd.pos = endPos ∧ find_path m start e = nd.posList.reverse := by
  unfold find_path at hne ⊢
  cases hr : resolveGoal m e with
  | none =>
    rw [hr] at hne
    exact (hne rfl).elim
  | some endPos =>
    rw [hr] at hne
    have hinv : ∀ nd ∈ [ANode.root start 0 0], ChainOK m start nd := by
      intro nd hnd
      rw [List.mem_singleton] at hnd
      subst hnd
      exact ChainOK.root 0 0
    have hne2 : astarLoop m endPos (astarFuel m)
        { openl := [ANode.root start 0 0], closed := [],
          cache := [(start, 0)] } ≠ [] := hne
    obtain ⟨nd, h1, h2, h3⟩ := astarLoop_sound (astarFuel m) _ hinv hne2
    exact ⟨endPos, nd, rfl, h1, h2, h3⟩

/-! ### Completeness of the A* loop: potential and invariants -/

/-- One more than the cell count; an upper bound on the number of
distinct cache keys a run can create. -/
def astarN (m : SpaceshipMap) : ℕ := (m.width * m.height).toNat + 1

lemma astarFuel_eq (m : SpaceshipMap) :
    astarFuel m = astarN m * (707 * astarN m + 2) + 2 := rfl

/-- Every key the cache can ever hold: in-bounds cells plus the start. -/
def validKeys (m : SpaceshipMap) (start : ℤ × ℤ) : Finset (ℤ × ℤ) :=
  (Finset.Icc 0 (m.width - 1) ×ˢ Finset.Icc 0 (m.height - 1)) ∪ {start}

lemma start_mem_validKeys (m : SpaceshipMap) (start : ℤ × ℤ) :
    start ∈ validKeys m start := by
  unfold validKeys
  exact Finset.mem_union_right _ (Finset.mem_singleton_self start)

lemma neighbor_mem_validKeys {m : SpaceshipMap} (start : ℤ × ℤ)
    {p q : ℤ × ℤ} (h : q ∈ get_neighbors m p) : q ∈ validKeys m start := by
  obtain ⟨⟨h1, h2, h3, h4⟩, -, -⟩ := get_neighbors_spec h
  unfold validKeys
  apply Finset.mem_union_left
  rw [Finset.mem_product, Finset.mem_Icc, Finset.mem_Icc]
  omega

lemma validKeys_card (m : SpaceshipMap) (start : ℤ × ℤ) :
    (validKeys m start).card ≤ astarN m := by
  unfold validKeys astarN
  have h1 : (Finset.Icc (0:ℤ) (m.width - 1) ×ˢ
      Finset.Icc (0:ℤ) (m.height - 1)).card =
      m.width.toNat * m.height.toNat := by
    rw [Finset.card_product, Int.card_Icc, Int.card_Icc]
    congr 1 <;> omega
  have h2 : m.width.toNat * m.height.toNat ≤ (m.width * m.height).toNat := by
    rcases le_or_lt 0 m.width with hw | hw
    · rcases le_or_lt 0 m.height with hh | hh
      · have hcast : ((m.width.toNat * m.height.toNat : ℕ) : ℤ) =
            m.width * m.height := by
          push_cast
          rw [Int.toNat_of_nonneg hw, Int.toNat_of_nonneg hh]
        omega
      · rw [Int.toNat_of_nonpos hh.le]
        simp
    · rw [Int.toNat_of_nonpos hw.le]
      simp
  calc ((Finset.Icc (0:ℤ) (m.width - 1) ×ˢ
      Finset.Icc (0:ℤ) (m.height - 1)) ∪ {start}).card
      ≤ (Finset.Icc (0:ℤ) (m.width - 1) ×ˢ
        Finset.Icc (0:ℤ) (m.height - 1)).card + ({start} : Finset (ℤ × ℤ)).card :=
        Finset.card_union_le _ _
    _ ≤ (m.width * m.height).toNat + 1 := by
        rw [h1, Finset.card_singleton]
        omega

lemma cacheGet_set_self (c : List ((ℤ × ℤ) × ℚ)) (k : ℤ × ℤ) (v : ℚ) :
    cacheGet (cacheSet c k v) k = some v := by
  unfold cacheGet cacheSet
  rw [List.find?_cons_of_pos]
  · rfl
  · exact beq_self_eq_true k

lemma cacheGet_set_ne (c : List ((ℤ × ℤ) × ℚ)) {k k' : ℤ × ℤ} (v : ℚ)
    (h : k' ≠ k) : cacheGet (cacheSet c k v) k' = cacheGet c k' := by
  unfold cacheGet cacheSet
  rw [List.find?_cons_of_neg]
  intro hpred
  rw [beq_iff_eq] at hpred
  exact h hpred.symm

lemma cacheGet_singleton {start k : ℤ × ℤ} {v g : ℚ}
    (h : cacheGet [(start, v)] k = some g) : k = start ∧ g = v := by
  unfold cacheGet at h
  by_cases hb : start = k
  · subst hb
    rw [List.find?_cons_of_pos] at h
    · rw [Option.map_some'] at h
      exact ⟨rfl, (Option.some_inj.mp h).symm⟩
    · exact beq_self_eq_true start
  · rw [List.find?_cons_of_neg, List.find?_nil] at h
    · cases h
    · intro hh
      rw [beq_iff_eq] at hh
      exact hb hh

/-- The cache refines pointwise: every stored cost stays stored, never
worse. -/
def cacheImprove (c c' : List ((ℤ × ℤ) × ℚ)) : Prop :=
  ∀ k g, cacheGet c k = some g → ∃ g', cacheGet c' k = some g' ∧ g' ≤ g

lemma cacheImprove_refl (c : List ((ℤ × ℤ) × ℚ)) : cacheImprove c c :=
  fun _ g h => ⟨g, h, le_refl g⟩

lemma cacheImprove_trans {a b c : List ((ℤ × ℤ) × ℚ)}
    (h1 : cacheImprove a b) (h2 : cacheImprove b c) : cacheImprove a c := by
  intro k g hg
  obtain ⟨g1, hg1, hle1⟩ := h1 k g hg
  obtain ⟨g2, hg2, hle2⟩ := h2 k g1 hg1
  exact ⟨g2, hg2, hle2.trans hle1⟩

lemma cacheImprove_isSome {c c' : List ((ℤ × ℤ) × ℚ)}
    (h : cacheImprove c c') :
    ∀ k, (cacheGet c k).isSome = true → (cacheGet c' k).isSome = true := by
  intro k hk
  obtain ⟨g, hg⟩ := Option.isSome_iff_exists.mp hk
  obtain ⟨g', hg', -⟩ := h k g hg
  rw [hg']
  rfl

lemma cacheImprove_set_none {c : List ((ℤ × ℤ) × ℚ)} {n : ℤ × ℤ} (v : ℚ)
    (hnone : cacheGet c n = none) : cacheImprove c (cacheSet c n v) := by
  intro k g hg
  by_cases hk : k = n
  · rw [hk, hnone] at hg
    cases hg
  · rw [cacheGet_set_ne c v hk]
    exact ⟨g, hg, le_refl g⟩

lemma cacheImprove_set_lt {c : List ((ℤ × ℤ) × ℚ)} {n : ℤ × ℤ} {v gc : ℚ}
    (hold : cacheGet c n = some gc) (hle : v ≤ gc) :
    cacheImprove c (cacheSet c n v) := by
  intro k g hg
  by_cases hk : k = n
  · subst hk
    rw [hold, Option.some_inj] at hg
    subst hg
    exact ⟨v, cacheGet_set_self c k v, hle⟩
  · rw [cacheGet_set_ne c v hk]
    exact ⟨g, hg, le_refl g⟩

/-- Potential of one cache slot: an uncached key is worth one more than
any reachable scaled cost; a cached cost g (always of the form n/500)
is worth its scaled numerator. -/
def potEntry (m : SpaceshipMap) (o : Option ℚ) : ℕ :=
  match o with
  | none => 707 * astarN m + 1
  | some g => (Int.ceil ((500 : ℚ) * g)).toNat

lemma potEntry_num (m : SpaceshipMap) (n : ℕ) :
    potEntry m (some ((n : ℚ) / 500)) = n := by
  unfold potEntry
  have h : (500 : ℚ) * ((n : ℚ) / 500) = (n : ℚ) := by
    field_simp
  dsimp only
  rw [h]
  rw [Int.ceil_natCast]
  rfl

/-- The loop potential: open size plus cache potential over all keys
the run can touch.  Strictly decreases at every iteration. -/
def Phi (m : SpaceshipMap) (start : ℤ × ℤ) (st : AState) : ℕ :=
  st.openl.length + ∑ k ∈ validKeys m start, potEntry m (cacheGet st.cache k)

/-- The node together with all its ancestors. -/
def ANode.chainNodes : ANode → List ANode
  | ANode.root p g h => [ANode.root p g h]
  | ANode.child p g h par => ANode.child p g h par :: par.chainNodes

lemma self_mem_chainNodes (nd : ANode) : nd ∈ nd.chainNodes := by
  cases nd <;> exact List.mem_cons_self _ _

lemma mem_posList_iff_chainNodes (nd : ANode) (q : ℤ × ℤ) :
    q ∈ nd.posList ↔ ∃ e ∈ nd.chainNodes, e.pos = q := by
  induction nd with
  | root p g h =>
    simp [ANode.posList, ANode.chainNodes, ANode.pos]
    exact comm
  | child p g h par ih =>
    simp only [ANode.posList, ANode.chainNodes, List.mem_cons]
    constructor
    · rintro (rfl | hq)
      · exact ⟨ANode.child q g h par, Or.inl rfl, rfl⟩
      · obtain ⟨e, he, hep⟩ := ih.mp hq
        exact ⟨e, Or.inr he, hep⟩
    · rintro ⟨e, he | he, hep⟩
      · subst he
        exact Or.inl hep.symm
      · exact Or.inr (ih.mpr ⟨e, he, hep⟩)

/-- Cost-correct nodes: rooted at start with g = 0, each link a
neighbour step of cost 1 or 1.414, with no repeated cell along the
chain. -/
inductive CostOK (m : SpaceshipMap) (start : ℤ × ℤ) : ANode → Prop where
  | root (h : ℤ) : CostOK m start (ANode.root start 0 h)
  | child (p : ℤ × ℤ) (c : ℚ) (h : ℤ) (par : ANode)
      (hpar : CostOK m start par)
      (hadj : p ∈ get_neighbors m par.pos)
      (hc : c = 1 ∨ c = 1.414)
      (hnodup : p ∉ par.posList) :
      CostOK m start (ANode.child p (par.g + c) h par)

lemma CostOK.chain_g_le {m : SpaceshipMap} {start : ℤ × ℤ} {nd : ANode}
    (h : CostOK m start nd) : ∀ e ∈ nd.chainNodes, e.g ≤ nd.g := by
  induction h with
  | root h =>
    intro e he
    simp only [ANode.chainNodes, List.mem_singleton] at he
    rw [he]
  | child p c h par hpar hadj hc hnodup ih =>
    intro e he
    simp only [ANode.chainNodes, List.mem_cons] at he
    have hc0 : (0 : ℚ) ≤ c := by
      rcases hc with rfl | rfl <;> norm_num
    rcases he with rfl | he
    · exact le_refl _
    · calc e.g ≤ par.g := ih e he
        _ ≤ par.g + c := by linarith
        _ = (ANode.child p (par.g + c) h par).g := rfl

lemma CostOK.nodup {m : SpaceshipMap} {start : ℤ × ℤ} {nd : ANode}
    (h : CostOK m start nd) : nd.posList.Nodup := by
  induction h with
  | root h => simp [ANode.posList]
  | child p c h par hpar hadj hc hnodup ih =>
    exact List.nodup_cons.mpr ⟨hnodup, ih⟩

lemma CostOK.mem_valid {m : SpaceshipMap} {start : ℤ × ℤ} {nd : ANode}
    (h : CostOK m start nd) :
    ∀ q ∈ nd.posList, q ∈ validKeys m start := by
  induction h with
  | root h =>
    intro q hq
    simp only [ANode.posList, List.mem_singleton] at hq
    rw [hq]
    exact start_mem_validKeys m start
  | child p c h par hpar hadj hc hnodup ih =>
    intro q hq
    rcases List.mem_cons.mp hq with rfl | hq
    · exact neighbor_mem_validKeys start hadj
    · exact ih q hq

lemma CostOK.length_le {m : SpaceshipMap} {start : ℤ × ℤ} {nd : ANode}
    (h : CostOK m start nd) : nd.posList.length ≤ astarN m := by
  have h1 : nd.posList.toFinset.card = nd.posList.length :=
    List.toFinset_card_of_nodup h.nodup
  have h2 : nd.posList.toFinset ⊆ validKeys m start := by
    intro q hq
    rw [List.mem_toFinset] at hq
    exact h.mem_valid q hq
  calc nd.posList.length = nd.posList.toFinset.card := h1.symm
    _ ≤ (validKeys m start).card := Finset.card_le_card h2
    _ ≤ astarN m := validKeys_card m start

lemma CostOK.g_form {m : SpaceshipMap} {start : ℤ × ℤ} {nd : ANode}
    (h : CostOK m start nd) :
    ∃ n : ℕ, nd.g = (n : ℚ) / 500 ∧ n ≤ 707 * (nd.posList.length - 1) := by
  induction h with
  | root h =>
    refine ⟨0, ?_, ?_⟩
    · norm_num [ANode.g]
    · simp
  | child p c h par hpar hadj hc hnodup ih =>
    obtain ⟨n, hn, hb⟩ := ih
    refine ⟨n + (if c = 1 then 500 else 707), ?_, ?_⟩
    · show par.g + c = _
      rcases hc with rfl | rfl
      · rw [if_pos rfl, hn]
        push_cast
        ring
      · rw [if_neg (by norm_num)]
        rw [hn]
        push_cast
        norm_num
        ring
    · have hlen : (ANode.child p (par.g + c) h par).posList.length =
          par.posList.length + 1 := rfl
      have hone : 1 ≤ par.posList.length := by
        cases hpl : par.posList with
        | nil => exact absurd hpl (posList_ne_nil par)
        | cons a as => simp
      rw [hlen]
      split_ifs <;> omega

lemma CostOK.g_bound {m : SpaceshipMap} {start : ℤ × ℤ} {nd : ANode}
    (h : CostOK m start nd) :
    ∃ n : ℕ, nd.g = (n : ℚ) / 500 ∧ n ≤ 707 * (astarN m - 1) := by
  obtain ⟨n, hn, hb⟩ := h.g_form
  have hlen := h.length_le
  exact ⟨n, hn, by omega⟩

/-- The cache dominates a node chain: every ancestor's cell is cached
at a cost no worse than the ancestor's. -/
def ChainDom (c : List ((ℤ × ℤ) × ℚ)) (nd : ANode) : Prop :=
  ∀ e ∈ nd.chainNodes, ∃ g, cacheGet c e.pos = some g ∧ g ≤ e.g

lemma ChainDom.mono {c c' : List ((ℤ × ℤ) × ℚ)} {nd : ANode}
    (himp : cacheImprove c c') (h : ChainDom c nd) : ChainDom c' nd := by
  intro e he
  obtain ⟨g, hg, hle⟩ := h e he
  obtain ⟨g', hg', hle'⟩ := himp e.pos g hg
  exact ⟨g', hg', hle'.trans hle⟩

/-- The loop invariant, minus the neighbours-of-closed condition. -/
structure CCore (m : SpaceshipMap) (start endPos : ℤ × ℤ) (st : AState) :
    Prop where
  openOK : ∀ nd ∈ st.openl, CostOK m start nd
  openDom : ∀ nd ∈ st.openl, ChainDom st.cache nd
  cacheForm : ∀ k g, cacheGet st.cache k = some g →
    ∃ n : ℕ, g = (n : ℚ) / 500 ∧ n ≤ 707 * (astarN m - 1)
  cacheKeys : ∀ k g, cacheGet st.cache k = some g → k ∈ validKeys m start
  keysLoc : ∀ k, (cacheGet st.cache k).isSome = true →
    k ∈ st.closed ∨ ∃ nd ∈ st.openl, nd.pos = k
  closedCached : ∀ k ∈ st.closed, (cacheGet st.cache k).isSome = true
  endNotClosed : endPos ∉ st.closed
  startCached : (cacheGet st.cache start).isSome = true

/-- Every neighbour of every cell of S is cached. -/
def NbCached (m : SpaceshipMap) (c : List ((ℤ × ℤ) × ℚ))
    (S : List (ℤ × ℤ)) : Prop :=
  ∀ k ∈ S, ∀ n ∈ get_neighbors m k, (cacheGet c n).isSome = true

/-- The full loop invariant. -/
def CInv (m : SpaceshipMap) (start endPos : ℤ × ℤ) (st : AState) : Prop :=
  CCore m start endPos st ∧ NbCached m st.cache st.closed

lemma popClose_core {m : SpaceshipMap} {start endPos : ℤ × ℤ} {st : AState}
    {cur : ANode} {rest : List ANode}
    (hc : CCore m start endPos st) (hp : popMin st.openl = some (cur, rest))
    (hne : cur.pos ≠ endPos) :
    CCore m start endPos
      { openl := rest, closed := cur.pos :: st.closed, cache := st.cache } ∧
    CostOK m start cur ∧ ChainDom st.cache cur := by
  have hperm := popMin_perm hp
  have hmemcur : cur ∈ st.openl := hperm.mem_iff.mpr (List.mem_cons_self _ _)
  have hrest : ∀ nd ∈ rest, nd ∈ st.openl := fun nd hnd =>
    hperm.mem_iff.mpr (List.mem_cons_of_mem cur hnd)
  refine ⟨⟨?_, ?_, hc.cacheForm, hc.cacheKeys, ?_, ?_, ?_, hc.startCached⟩,
    hc.openOK cur hmemcur, hc.openDom cur hmemcur⟩
  · exact fun nd hnd => hc.openOK nd (hrest nd hnd)
  · exact fun nd hnd => hc.openDom nd (hrest nd hnd)
  · intro k hk
    rcases hc.keysLoc k hk with hcl | ⟨nd, hnd, hpos⟩
    · exact Or.inl (List.mem_cons_of_mem _ hcl)
    · rcases List.mem_cons.mp (hperm.mem_iff.mp hnd) with h1 | h1
      · left
        rw [← hpos, h1]
        exact List.mem_cons_self _ _
      · exact Or.inr ⟨nd, h1, hpos⟩
  · intro k hk
    rcases List.mem_cons.mp hk with rfl | hk
    · obtain ⟨g, hg, -⟩ := hc.openDom cur hmemcur cur (self_mem_chainNodes cur)
      rw [hg]
      rfl
    · exact hc.closedCached k hk
  · intro hmem
    rcases List.mem_cons.mp hmem with h1 | h1
    · exact hne h1.symm
    · exact hc.endNotClosed h1

lemma moveCost_cases (cur : ANode) (n : ℤ × ℤ) :
    moveCost cur n = 1 ∨ moveCost cur n = 1.414 := by
  unfold moveCost
  split_ifs
  · exact Or.inl rfl
  · exact Or.inr rfl

lemma one_le_moveCost (cur : ANode) (n : ℤ × ℤ) : (1 : ℚ) ≤ moveCost cur n := by
  rcases moveCost_cases cur n with h | h <;> rw [h] <;> norm_num

lemma relaxStep_push {m : SpaceshipMap} {start endPos : ℤ × ℤ} {cur : ANode}
    (hcost : CostOK m start cur) {st : AState}
    (hcore : CCore m start endPos st) (hdom : ChainDom st.cache cur)
    {n : ℤ × ℤ} (hn : n ∈ get_neighbors m cur.pos)
    (hgc : ∀ gc, cacheGet st.cache n = some gc →
      cur.g + moveCost cur n < gc) :
    CCore m start endPos (pushState endPos cur st n) ∧
    cacheImprove st.cache (pushState endPos cur st n).cache ∧
    Phi m start (pushState endPos cur st n) ≤ Phi m start st := by
  have hmc1 := one_le_moveCost cur n
  have hnodup : n ∉ cur.posList := by
    intro hmem
    obtain ⟨e, he, hep⟩ := (mem_posList_iff_chainNodes cur n).mp hmem
    obtain ⟨g, hg, hle⟩ := hdom e he
    rw [hep] at hg
    have hecur : e.g ≤ cur.g := hcost.chain_g_le e he
    have := hgc g hg
    linarith
  have himpcache : cacheImprove st.cache
      (cacheSet st.cache n (cur.g + moveCost cur n)) := by
    cases hcg : cacheGet st.cache n with
    | none => exact cacheImprove_set_none _ hcg
    | some gc => exact cacheImprove_set_lt hcg (hgc gc hcg).le
  have hpcost : CostOK m start (pushNode endPos cur n) := by
    show CostOK m start
      (ANode.child n (cur.g + moveCost cur n) (hsqTo n endPos) cur)
    exact CostOK.child n (moveCost cur n) _ cur hcost hn
      (moveCost_cases cur n) hnodup
  obtain ⟨a, ha, hab⟩ := hpcost.g_bound
  have ha' : cur.g + moveCost cur n = (a : ℚ) / 500 := ha
  have hgetself : cacheGet (pushState endPos cur st n).cache n =
      some (cur.g + moveCost cur n) := cacheGet_set_self _ _ _
  refine ⟨⟨?_, ?_, ?_, ?_, ?_, ?_, hcore.endNotClosed, ?_⟩, himpcache, ?_⟩
  · intro nd hnd
    rcases List.mem_append.mp hnd with h1 | h1
    · exact hcore.openOK nd h1
    · rw [List.mem_singleton] at h1
      rw [h1]
      exact hpcost
  · intro nd hnd
    rcases List.mem_append.mp hnd with h1 | h1
    · exact (hcore.openDom nd h1).mono himpcache
    · rw [List.mem_singleton] at h1
      rw [h1]
      intro e he
      rcases List.mem_cons.mp he with rfl | he
      · exact ⟨cur.g + moveCost cur n, hgetself, le_refl _⟩
      · have hne : e.pos ≠ n := by
          intro heq
          exact hnodup ((mem_posList_iff_chainNodes cur n).mpr ⟨e, he, heq⟩)
        obtain ⟨g, hg, hle⟩ := hdom e he
        refine ⟨g, ?_, hle⟩
        show cacheGet (cacheSet st.cache n (cur.g + moveCost cur n)) e.pos =
          some g
        rw [cacheGet_set_ne _ _ hne]
        exact hg
  · intro k g hg
    by_cases hk : k = n
    · subst hk
      rw [hgetself, Option.some_inj] at hg
      exact ⟨a, by rw [← hg, ha'], by omega⟩
    · have : cacheGet st.cache k = some g := by
        rw [← cacheGet_set_ne st.cache _ hk]
        exact hg
      exact hcore.cacheForm k g this
  · intro k g hg
    by_cases hk : k = n
    · subst hk
      exact neighbor_mem_validKeys start hn
    · have : cacheGet st.cache k = some g := by
        rw [← cacheGet_set_ne st.cache _ hk]
        exact hg
      exact hcore.cacheKeys k g this
  · intro k hk
    by_cases hkn : k = n
    · right
      refine ⟨pushNode endPos cur n,
        List.mem_append_right _ (List.mem_singleton_self _), ?_⟩
      rw [hkn]
      rfl
    · have hk' : (cacheGet st.cache k).isSome = true := by
        have heq : cacheGet (pushState endPos cur st n).cache k =
            cacheGet st.cache k := cacheGet_set_ne _ _ hkn
        rw [heq] at hk
        exact hk
      rcases hcore.keysLoc k hk' with h1 | ⟨nd, hnd, hpos⟩
      · exact Or.inl h1
      · exact Or.inr ⟨nd, List.mem_append_left _ hnd, hpos⟩
  · intro k hk
    exact cacheImprove_isSome himpcache k (hcore.closedCached k hk)
  · exact cacheImprove_isSome himpcache start hcore.startCached
  · unfold Phi
    have hlen : (pushState endPos cur st n).openl.length =
        st.openl.length + 1 := by
      show (st.openl ++ [pushNode endPos cur n]).length = _
      rw [List.length_append]
      rfl
    have hkeyV : n ∈ validKeys m start := neighbor_mem_validKeys start hn
    have hptn : potEntry m (cacheGet (pushState endPos cur st n).cache n) +
        1 ≤ potEntry m (cacheGet st.cache n) := by
      rw [hgetself, ha', potEntry_num]
      cases hcg : cacheGet st.cache n with
      | none =>
        show a + 1 ≤ 707 * astarN m + 1
        have h1 : 1 ≤ astarN m := by unfold astarN; omega
        omega
      | some gc =>
        obtain ⟨b, hb, hbb⟩ := hcore.cacheForm n gc hcg
        have hlt : cur.g + moveCost cur n < gc := hgc gc hcg
        rw [ha', hb] at hlt
        have hab2 : (a : ℚ) < (b : ℚ) := by
          rw [div_lt_div_iff_of_pos_right] at hlt
          · exact hlt
          · norm_num
        have : a < b := by exact_mod_cast hab2
        rw [hb, potEntry_num]
        omega
    have hsum : (∑ k ∈ validKeys m start,
          potEntry m (cacheGet (pushState endPos cur st n).cache k)) + 1 ≤
        ∑ k ∈ validKeys m start, potEntry m (cacheGet st.cache k) := by
      rw [← Finset.add_sum_erase _ _ hkeyV,
        ← Finset.add_sum_erase _
          (fun k => potEntry m (cacheGet st.cache k)) hkeyV]
      have herase : ∑ k ∈ (validKeys m start).erase n,
          potEntry m (cacheGet (pushState endPos cur st n).cache k) =
          ∑ k ∈ (validKeys m start).erase n,
          potEntry m (cacheGet st.cache k) := by
        apply Finset.sum_congr rfl
        intro k hk
        have hkn : k ≠ n := (Finset.mem_erase.mp hk).1
        congr 1
        exact cacheGet_set_ne _ _ hkn
      rw [herase]
      omega
    rw [hlen]
    omega

lemma relaxStep_one {m : SpaceshipMap} {start endPos : ℤ × ℤ} {cur : ANode}
    (hcost : CostOK m start cur) {st : AState}
    (hcore : CCore m start endPos st) (hdom : ChainDom st.cache cur)
    {n : ℤ × ℤ} (hn : n ∈ get_neighbors m cur.pos) :
    CCore m start endPos (relaxStep endPos cur st n) ∧
    ChainDom (relaxStep endPos cur st n).cache cur ∧
    cacheImprove st.cache (relaxStep endPos cur st n).cache ∧
    (cacheGet (relaxStep endPos cur st n).cache n).isSome = true ∧
    (relaxStep endPos cur st n).closed = st.closed ∧
    Phi m start (relaxStep endPos cur st n) ≤ Phi m start st := by
  have h4 : cacheGet (pushState endPos cur st n).cache n =
      some (cur.g + moveCost cur n) := cacheGet_set_self _ _ _
  rw [relaxStep_eq]
  by_cases hcl : n ∈ st.closed
  · rw [if_pos hcl]
    exact ⟨hcore, hdom, cacheImprove_refl _, hcore.closedCached n hcl, rfl,
      le_refl _⟩
  · rw [if_neg hcl]
    cases hcg : cacheGet st.cache n with
    | none =>
      have hgc : ∀ gc, cacheGet st.cache n = some gc →
          cur.g + moveCost cur n < gc := by
        intro gc h
        rw [hcg] at h
        cases h
      obtain ⟨h1, h2, h3⟩ := relaxStep_push hcost hcore hdom hn hgc
      exact ⟨h1, hdom.mono h2, h2, by rw [h4]; rfl, rfl, h3⟩
    | some gc =>
      dsimp only
      by_cases himp : cur.g + moveCost cur n < gc
      · rw [if_pos himp]
        have hgc : ∀ gc', cacheGet st.cache n = some gc' →
            cur.g + moveCost cur n < gc' := by
          intro gc' h
          rw [hcg, Option.some_inj] at h
          rw [← h]
          exact himp
        obtain ⟨h1, h2, h3⟩ := relaxStep_push hcost hcore hdom hn hgc
        exact ⟨h1, hdom.mono h2, h2, by rw [h4]; rfl, rfl, h3⟩
      · rw [if_neg himp]
        exact ⟨hcore, hdom, cacheImprove_refl _, by rw [hcg]; rfl, rfl,
          le_refl _⟩

lemma relax_fold {m : SpaceshipMap} {start endPos : ℤ × ℤ} {cur : ANode}
    (hcost : CostOK m start cur) :
    ∀ (ns : List (ℤ × ℤ)), (∀ n ∈ ns, n ∈ get_neighbors m cur.pos) →
    ∀ (st : AState), CCore m start endPos st → ChainDom st.cache cur →
    CCore m start endPos (ns.foldl (relaxStep endPos cur) st) ∧
    ChainDom (ns.foldl (relaxStep endPos cur) st).cache cur ∧
    cacheImprove st.cache (ns.foldl (relaxStep endPos cur) st).cache ∧
    (∀ n ∈ ns,
      (cacheGet (ns.foldl (relaxStep endPos cur) st).cache n).isSome = true) ∧
    (ns.foldl (relaxStep endPos cur) st).closed = st.closed ∧
    Phi m start (ns.foldl (relaxStep endPos cur) st) ≤ Phi m start st := by
  intro ns
  induction ns with
  | nil =>
    intro _ st hcore hdom
    refine ⟨hcore, hdom, cacheImprove_refl _, ?_, rfl, le_refl _⟩
    intro n hn
    cases hn
  | cons a as ih =>
    intro hns st hcore hdom
    obtain ⟨c1, c2, c3, c4, c5, c6⟩ :=
      relaxStep_one hcost hcore hdom (hns a (List.mem_cons_self a as))
    obtain ⟨f1, f2, f3, f4, f5, f6⟩ :=
      ih (fun n hn => hns n (List.mem_cons_of_mem a hn))
        (relaxStep endPos cur st a) c1 c2
    rw [List.foldl_cons]
    refine ⟨f1, f2, cacheImprove_trans c3 f3, ?_, f5.trans c5, f6.trans c6⟩
    intro n hn
    rcases List.mem_cons.mp hn with rfl | hn
    · exact cacheImprove_isSome f3 n c4
    · exact f4 n hn

lemma astarLoop_iter {m : SpaceshipMap} {start endPos : ℤ × ℤ} {st : AState}
    {cur : ANode} {rest : List ANode}
    (hc : CInv m start endPos st) (hp : popMin st.openl = some (cur, rest))
    (hne : cur.pos ≠ endPos) :
    CInv m start endPos
      ((get_neighbors m cur.pos).foldl (relaxStep endPos cur)
        { openl := rest, closed := cur.pos :: st.closed,
          cache := st.cache }) ∧
    cacheImprove st.cache
      ((get_neighbors m cur.pos).foldl (relaxStep endPos cur)
        { openl := rest, closed := cur.pos :: st.closed,
          cache := st.cache }).cache ∧
    Phi m start
      ((get_neighbors m cur.pos).foldl (relaxStep endPos cur)
        { openl := rest, closed := cur.pos :: st.closed,
          cache := st.cache }) < Phi m start st := by
  obtain ⟨hcore, hnb⟩ := hc
  obtain ⟨hcore1, hcost, hdom⟩ := popClose_core hcore hp hne
  obtain ⟨f1, f2, f3, f4, f5, f6⟩ :=
    relax_fold hcost (get_neighbors m cur.pos) (fun n hn => hn)
      { openl := rest, closed := cur.pos :: st.closed, cache := st.cache }
      hcore1 hdom
  refine ⟨⟨f1, ?_⟩, f3, ?_⟩
  · rw [f5]
    intro k hk n hn
    rcases List.mem_cons.mp hk with rfl | hk
    · exact f4 n hn
    · exact cacheImprove_isSome f3 n (hnb k hk n hn)
  · have hlen : st.openl.length = rest.length + 1 := by
      rw [(popMin_perm hp).length_eq]
      rfl
    have h7 : Phi m start
        ({ openl := rest, closed := cur.pos :: st.closed,
           cache := st.cache } : AState) + 1 = Phi m start st := by
      unfold Phi
      dsimp only
      rw [hlen]
      omega
    omega

/-- If the loop returns [] from an invariant state with enough fuel,
no cached cell can reach the goal. -/
lemma astarLoop_complete {m : SpaceshipMap} {start endPos : ℤ × ℤ} :
    ∀ (fuel : ℕ) (st : AState), CInv m start endPos st →
    Phi m start st < fuel → astarLoop m endPos fuel st = [] →
    ∀ k, (cacheGet st.cache k).isSome = true →
    ¬ Relation.ReflTransGen (Adj m) k endPos := by
  intro fuel
  induction fuel with
  | zero =>
    intro st _ hphi _
    exact absurd hphi (Nat.not_lt_zero _)
  | succ fuel ih =>
    intro st hc hphi hres k hk hreach
    cases hp : popMin st.openl with
    | none =>
      have hopen : st.openl = [] := popMin_none hp
      have hclosed : ∀ k', (cacheGet st.cache k').isSome = true →
          k' ∈ st.closed := by
        intro k' hk'
        rcases hc.1.keysLoc k' hk' with h1 | ⟨nd, hnd, -⟩
        · exact h1
        · rw [hopen] at hnd
          cases hnd
      revert hk
      induction hreach using Relation.ReflTransGen.head_induction_on with
      | refl =>
        intro hk
        exact hc.1.endNotClosed (hclosed endPos hk)
      | head hadj hrtg ihh =>
        intro hk
        exact ihh (hc.2 _ (hclosed _ hk) _ hadj)
    | some pr =>
      obtain ⟨cur, rest⟩ := pr
      have hloop : astarLoop m endPos (fuel + 1) st =
          if cur.pos = endPos then cur.posList.reverse
          else astarLoop m endPos fuel
            ((get_neighbors m cur.pos).foldl (relaxStep endPos cur)
              { openl := rest, closed := cur.pos :: st.closed,
                cache := st.cache }) := by
        conv_lhs => unfold astarLoop
        rw [hp]
      by_cases he : cur.pos = endPos
      · rw [hloop, if_pos he] at hres
        exact posList_ne_nil cur (List.reverse_eq_nil_iff.mp hres)
      · rw [hloop, if_neg he] at hres
        obtain ⟨g1, g2, g3⟩ := astarLoop_iter hc hp he
        exact ih _ g1 (by omega) hres k (cacheImprove_isSome g2 k hk) hreach

/-- If the resolved goal is route-connected to the start, find_path
does not return the empty path. -/
lemma find_path_complete {m : SpaceshipMap} {start e endPos : ℤ × ℤ}
    (hr : resolveGoal m e = some endPos)
    (hreach : Relation.ReflTransGen (Adj m) start endPos) :
    find_path m start e ≠ [] := by
  intro hres
  unfold find_path at hres
  rw [hr] at hres
  have hres2 : astarLoop m endPos (astarFuel m)
      { openl := [ANode.root start 0 0], closed := [],
        cache := [(start, 0)] } = [] := hres
  have hstart0 : cacheGet [(start, (0 : ℚ))] start = some 0 := by
    unfold cacheGet
    rw [List.find?_cons_of_pos]
    · rfl
    · exact beq_self_eq_true start
  have hpot0 : potEntry m (some (0 : ℚ)) = 0 := by
    have h0 : ((0 : ℕ) : ℚ) / 500 = (0 : ℚ) := by norm_num
    rw [← h0, potEntry_num]
  have hCInv : CInv m start endPos
      { openl := [ANode.root start 0 0], closed := [],
        cache := [(start, 0)] } := by
    refine ⟨⟨?_, ?_, ?_, ?_, ?_, ?_, ?_, ?_⟩, ?_⟩
    · intro nd hnd
      rw [List.mem_singleton] at hnd
      rw [hnd]
      exact CostOK.root 0
    · intro nd hnd
      rw [List.mem_singleton] at hnd
      subst hnd
      intro e' he'
      simp only [ANode.chainNodes, List.mem_singleton] at he'
      subst he'
      exact ⟨0, hstart0, le_refl 0⟩
    · intro k g hg
      obtain ⟨hk, hg0⟩ := cacheGet_singleton hg
      refine ⟨0, ?_, ?_⟩
      · rw [hg0]
        norm_num
      · exact Nat.zero_le _
    · intro k g hg
      rw [(cacheGet_singleton hg).1]
      exact start_mem_validKeys m start
    · intro k hk
      obtain ⟨g, hg⟩ := Option.isSome_iff_exists.mp hk
      right
      refine ⟨ANode.root start 0 0, List.mem_singleton_self _, ?_⟩
      rw [(cacheGet_singleton hg).1]
      rfl
    · intro k hk
      cases hk
    · intro hk
      cases hk
    · rw [hstart0]
      rfl
    · intro k hk
      cases hk
  have hPhi : Phi m start
      ({ openl := [ANode.root start 0 0], closed := [],
         cache := [(start, 0)] } : AState) < astarFuel m := by
    have hterm : ∀ k ∈ validKeys m start,
        potEntry m (cacheGet [(start, (0 : ℚ))] k) ≤ 707 * astarN m + 1 := by
      intro k _
      cases hcg : cacheGet [(start, (0 : ℚ))] k with
      | none => exact le_of_eq rfl
      | some g =>
        rw [(cacheGet_singleton hcg).2, hpot0]
        exact Nat.zero_le _
    have hsum : ∑ k ∈ validKeys m start,
        potEntry m (cacheGet [(start, (0 : ℚ))] k) ≤
        astarN m * (707 * astarN m + 1) := by
      calc ∑ k ∈ validKeys m start,
          potEntry m (cacheGet [(start, (0 : ℚ))] k)
          ≤ (validKeys m start).card • (707 * astarN m + 1) :=
            Finset.sum_le_card_nsmul _ _ _ hterm
        _ = (validKeys m start).card * (707 * astarN m + 1) := by rw [smul_eq_mul]
        _ ≤ astarN m * (707 * astarN m + 1) :=
            Nat.mul_le_mul_right _ (validKeys_card m start)
    have hexp : astarN m * (707 * astarN m + 2) =
        astarN m * (707 * astarN m + 1) + astarN m := by ring
    have h1 : 1 ≤ astarN m := by
      unfold astarN
      omega
    unfold Phi
    dsimp only
    rw [astarFuel_eq]
    rw [List.length_singleton]
    omega
  exact astarLoop_complete (astarFuel m) _ hCInv hPhi hres2 start
    (by rw [hstart0]; rfl) hreach

/-- C5: find_path, corrected: the resolved goal is the goal itself when
walkable, otherwise the FIRST walkable cell in the row-major
expanding-square scan of radius 1..4 (not the nearest such cell — see
C5_counterexample); with no walkable substitute the result is empty.
For a resolved goal, the result is nonempty exactly when a chain of
8-neighbour moves connects start to it, and a nonempty result starts at
the start cell, ends at the resolved goal, steps only between
8-adjacent cells, and (when the start cell is walkable) visits only
walkable cells. -/
theorem C5_find_path (m : SpaceshipMap) (start e : ℤ × ℤ) :
    (m.is_walkable e.1 e.2 = true → resolveGoal m e = some e) ∧
    (m.is_walkable e.1 e.2 = false →
      resolveGoal m e = (squareScan e).find? fun p => m.is_walkable p.1 p.2) ∧
    (resolveGoal m e = none → find_path m start e = []) ∧
    (∀ endPos, resolveGoal m e = some endPos →
      (Relation.ReflTransGen (Adj m) start endPos ↔
        find_path m start e ≠ [])) ∧
    (∀ endPos, resolveGoal m e = some endPos → find_path m start e ≠ [] →
      (find_path m start e).head? = some start ∧
      (find_path m start e).getLast? = some endPos ∧
      (find_path m start e).Chain' (Adj m) ∧
      (m.is_walkable start.1 start.2 = true →
        ∀ q ∈ find_path m start e, m.is_walkable q.1 q.2 = true)) := by
  refine ⟨?_, ?_, ?_, ?_, ?_⟩
  · intro hw
    unfold resolveGoal
    rw [if_pos hw]
  · intro hw
    have hcond : ¬ m.is_walkable e.1 e.2 = true := by
      rw [hw]
      exact Bool.false_ne_true
    unfold resolveGoal
    rw [if_neg hcond]
  · intro hr
    unfold find_path
    rw [hr]
  · intro endPos hr
    constructor
    · intro hreach
      exact find_path_complete hr hreach
    · intro hne
      obtain ⟨ep2, nd, hr2, hok, hpos, heq⟩ := find_path_sound hne
      rw [hr, Option.some_inj] at hr2
      subst hr2
      exact hpos ▸ hok.reach
  · intro endPos hr hne
    obtain ⟨ep2, nd, hr2, hok, hpos, heq⟩ := find_path_sound hne
    rw [hr, Option.some_inj] at hr2
    subst hr2
    refine ⟨?_, ?_, ?_, ?_⟩
    · rw [heq, List.head?_reverse, hok.last]
    · rw [heq, List.getLast?_reverse, posList_head, hpos]
    · rw [heq, List.chain'_reverse]
      exact hok.chain
    · intro hsw q hq
      rw [heq, List.mem_reverse] at hq
      exact hok.mem_walkable hsw q hq

/-- C5 witness: on the Skeld map with the unwalkable goal (27,17), the
resolved substitute is (26,16); starting there the route exists
trivially and the returned path is nonempty and starts at the start. -/
theorem C5_find_path_witness :
    resolveGoal skeldMap (27, 17) = some (26, 16) ∧
    find_path skeldMap (26, 16) (27, 17) ≠ [] ∧
    (find_path skeldMap (26, 16) (27, 17)).head? = some (26, 16) := by
  have h := C5_find_path skeldMap (26, 16) (27, 17)
  have hr : resolveGoal skeldMap (27, 17) = some (26, 16) := by decide
  have hne : find_path skeldMap (26, 16) (27, 17) ≠ [] :=
    (h.2.2.2.1 (26, 16) hr).mp Relation.ReflTransGen.refl
  exact ⟨hr, hne, (h.2.2.2.2 (26, 16) hr hne).1⟩
